import Mathlib

/-!
Shallow embedding of the kops subnet CIDR assignment core
(`upup/pkg/fi/cloudup/subnets.go`, function `assignCIDRsToSubnets`),
together with models of the helper routines it calls from
`pkg/util/subnet` (SplitInto1/2/4/8, Overlap) and the relevant parts of
Go's `net` package (ParseCIDR for IPv4, IPNet.Contains, IPNet.String).

IPv4 addresses are modelled as natural numbers below 2^32; CIDR blocks as
a masked base address plus a mask length.  Subnet CIDR fields are kept as
strings, exactly as in the Go code, with explicit parsing and rendering.
-/

namespace Kops

/-- An IPv4 network block: models Go's `net.IPNet` restricted to IPv4.
`ip` is the (masked) base address, `bits` the mask length from
`net.CIDRMask(bits, 32)`. -/
structure IPNet where
  ip : Nat
  bits : Nat
deriving DecidableEq, Repr

/-- Keep only the top `bits` bits of a 32-bit address: models
`ip.Mask(net.CIDRMask(bits, 32))`. -/
def maskAddr (a : Nat) (bits : Nat) : Nat :=
  a / 2 ^ (32 - bits) * 2 ^ (32 - bits)

/-- Number of addresses covered by the block. -/
def IPNet.size (n : IPNet) : Nat := 2 ^ (32 - n.bits)

/-- Models Go's `(n *IPNet).Contains(a)`: the address masked with the
block's mask equals the block's base. -/
def IPNet.contains (n : IPNet) (a : Nat) : Bool :=
  decide (maskAddr a n.bits = n.ip)

/-- A well-formed IPv4 block as produced by `net.ParseCIDR`: mask length
at most 32, address below 2^32 and already masked. -/
def IPNet.Canonical (n : IPNet) : Prop :=
  n.bits ≤ 32 ∧ n.ip < 2 ^ 32 ∧ maskAddr n.ip n.bits = n.ip

instance (n : IPNet) : Decidable n.Canonical := by
  unfold IPNet.Canonical; infer_instance

/-- Modelled from the spec: two AddressBlocks "overlap" iff their address
ranges intersect at all (partial or full containment in either direction
counts as overlap).  This models `subnet.Overlap` from
`pkg/util/subnet`, which is not part of the extracted sources. -/
def overlap (a b : IPNet) : Bool :=
  decide (a.ip < b.ip + b.size ∧ b.ip < a.ip + a.size)

/-- Range inclusion of one block in another ("lies within"). -/
def IPNet.within (b p : IPNet) : Bool :=
  decide (p.ip ≤ b.ip ∧ b.ip + b.size ≤ p.ip + p.size)

/-! ### Decimal digits, octets, dotted-quad strings -/

/-- The decimal digit character for `d < 10` (`'0'` used for other input). -/
def digitChar (d : Nat) : Char :=
  if d = 1 then '1' else if d = 2 then '2' else if d = 3 then '3'
  else if d = 4 then '4' else if d = 5 then '5' else if d = 6 then '6'
  else if d = 7 then '7' else if d = 8 then '8' else if d = 9 then '9'
  else '0'

/-- Value of a decimal digit character, `none` for non-digits. -/
def digitVal (c : Char) : Option Nat :=
  if c = '0' then some 0 else if c = '1' then some 1 else if c = '2' then some 2
  else if c = '3' then some 3 else if c = '4' then some 4 else if c = '5' then some 5
  else if c = '6' then some 6 else if c = '7' then some 7 else if c = '8' then some 8
  else if c = '9' then some 9 else none

/-- Decimal rendering of a natural number below 1000 (enough for IPv4
octets and mask lengths), as in Go's integer-to-string conversion. -/
def natToChars (n : Nat) : List Char :=
  if n < 10 then [digitChar n]
  else if n < 100 then [digitChar (n / 10), digitChar (n % 10)]
  else [digitChar (n / 100), digitChar (n / 10 % 10), digitChar (n % 10)]

/-- Accumulating decimal reader: models Go's `dtoi` digit loop. -/
def readNatAux : List Char → Nat → Option Nat
  | [], acc => some acc
  | c :: cs, acc =>
    match digitVal c with
    | some d => readNatAux cs (acc * 10 + d)
    | none => none

/-- Read a nonempty all-digit string as a natural number. -/
def readNat (cs : List Char) : Option Nat :=
  if cs = [] then none else readNatAux cs 0

/-- Split a character list on a separator character. -/
def splitOnChar (sep : Char) : List Char → List (List Char)
  | [] => [[]]
  | c :: cs =>
    match splitOnChar sep cs with
    | [] => if c = sep then [[], []] else [[c]]
    | g :: gs => if c = sep then [] :: g :: gs else (c :: g) :: gs

/-- Models one dotted-quad field of Go's IPv4 parser: a decimal number,
at most 255, with no leading zero. -/
def parseOctet (cs : List Char) : Option Nat :=
  match readNat cs with
  | none => none
  | some v =>
    if 255 < v then none
    else if 1 < cs.length ∧ cs.headD ' ' = '0' then none
    else some v

/-- Models the mask-length part of Go's `net.ParseCIDR`: a decimal number
of at most 32. -/
def parseBits (cs : List Char) : Option Nat :=
  match readNat cs with
  | none => none
  | some v => if v ≤ 32 then some v else none

/-- Parse a dotted-quad IPv4 address into a 32-bit natural number. -/
def parseIPv4 (cs : List Char) : Option Nat :=
  match splitOnChar '.' cs with
  | [a, b, c, d] =>
    match parseOctet a, parseOctet b, parseOctet c, parseOctet d with
    | some o1, some o2, some o3, some o4 =>
      some (o1 * 16777216 + o2 * 65536 + o3 * 256 + o4)
    | _, _, _, _ => none
  | _ => none

/-- Models Go's `net.ParseCIDR` for IPv4 input: returns the network block
with the base address masked down to the mask length. -/
def parseCIDR (s : String) : Option IPNet :=
  match splitOnChar '/' s.data with
  | [addr, mask] =>
    match parseIPv4 addr, parseBits mask with
    | some ip, some bits => some ⟨maskAddr ip bits, bits⟩
    | _, _ => none
  | _ => none

/-- Models `(n *IPNet).String()` for IPv4: dotted quad, slash, mask length. -/
def IPNet.render (n : IPNet) : String :=
  String.mk (natToChars (n.ip / 16777216 % 256) ++ '.' ::
    natToChars (n.ip / 65536 % 256) ++ '.' ::
    natToChars (n.ip / 256 % 256) ++ '.' ::
    natToChars (n.ip % 256) ++ '/' :: natToChars n.bits)

/-! ### Data model: cluster, subnets, errors -/

/-- Models `kops.ClusterSubnetSpec` (the fields used by the core).
The Go field `Type` is called `ty` here. -/
structure ClusterSubnetSpec where
  name : String
  zone : String
  cidr : String
  ipv6CIDR : String
  ty : String
  id : String
deriving DecidableEq, Repr

instance : Inhabited ClusterSubnetSpec := ⟨⟨"", "", "", "", "", ""⟩⟩

/-- Models the parts of `kops.Cluster` read by the core:
`Spec.Networking.NetworkID`, `Spec.Networking.NetworkCIDR` and
`Spec.Networking.Subnets`. -/
structure Cluster where
  networkID : String
  networkCIDR : String
  subnets : List ClusterSubnetSpec
deriving DecidableEq, Repr

/-- Models `fi.SubnetInfo` as returned by the cloud provider. -/
structure SubnetInfo where
  id : String
  zone : String
  cidr : String
deriving DecidableEq, Repr

/-- Models `fi.VPCInfo`. -/
structure VPCInfo where
  cidr : String
  subnets : List SubnetInfo
deriving DecidableEq, Repr

/-- Models `fi.Cloud` restricted to the one method the core calls,
`FindVPCInfo`: either an error message, or an optional VPCInfo. -/
def Cloud : Type := String → Except String (Option VPCInfo)

/-- One constructor per `fmt.Errorf` site reachable from
`assignCIDRsToSubnets`, carrying the data interpolated into the format
string. -/
inductive RunError where
  | cloudError (msg : String)
  | vpcNotFound (id : String)
  | subnetNotFoundInVPC (id vpcID : String)
  | subnetHasNoCIDR (id : String)
  | cidrMismatch (id declared actual : String)
  | zoneMismatch (id declared actual : String)
  | invalidNetworkCIDR (s : String)
  | invalidSubnetCIDR (name cidr : String)
  | unexpectedSubnetCIDR (name cidr : String)
  | unknownSubnetType (name ty : String)
  | cannotSplit (bits k : Nat)
  | noCIDRsAvailable
  | insufficientLittleCIDRs (name : String)
  | insufficientBigCIDRs (name : String)
deriving DecidableEq, Repr

instance {e a : Type} [DecidableEq e] [DecidableEq a] :
    DecidableEq (Except e a) := fun x y =>
  match x, y with
  | .error v, .error w =>
    if h : v = w then .isTrue (h ▸ rfl)
    else .isFalse fun hc => h (by injection hc)
  | .ok v, .ok w =>
    if h : v = w then .isTrue (h ▸ rfl)
    else .isFalse fun hc => h (by injection hc)
  | .error _, .ok _ => .isFalse fun hc => Except.noConfusion hc
  | .ok _, .error _ => .isFalse fun hc => Except.noConfusion hc

/-- Subnet role constants from `pkg/apis/kops`. -/
def SubnetTypeDualStack : String := "DualStack"

/-- Subnet role constant. -/
def SubnetTypePublic : String := "Public"

/-- Subnet role constant. -/
def SubnetTypePrivate : String := "Private"

/-- Subnet role constant. -/
def SubnetTypeUtility : String := "Utility"

/-- The subnet at position `i` (Go code always indexes in bounds). -/
def subnetAt (c : Cluster) (i : Nat) : ClusterSubnetSpec :=
  c.subnets.getD i default

/-- The `cidr` field of the subnet at position `i`. -/
def cidrAt (c : Cluster) (i : Nat) : String :=
  (subnetAt c i).cidr

/-- Write the `cidr` field of the subnet at position `i` (models a write
through the `*ClusterSubnetSpec` pointer). -/
def setCIDR (c : Cluster) (i : Nat) (v : String) : Cluster :=
  { c with subnets := c.subnets.set i { subnetAt c i with cidr := v } }

/-! ### The algorithm (`subnets.go`) -/

/-- Models `allSubnetsHaveCIDRs` (subnets.go lines 232-242): true iff each
subnet in the cluster has a non-empty CIDR. -/
def allSubnetsHaveCIDRs (c : Cluster) : Bool :=
  c.subnets.all fun s => !(s.cidr = "")

/-- Models the `subnetByID` map built at lines 65-68 followed by a lookup:
with Go map insertion, a later entry with the same ID overwrites an
earlier one. -/
def lookupByID (l : List SubnetInfo) (id : String) : Option SubnetInfo :=
  l.foldl (fun acc s => if s.id = id then some s else acc) none

/-- Models the per-subnet loop at lines 69-90: cross-check / fill in
CIDRs for ID-referenced subnets.  The cluster is threaded explicitly so
that writes made before a later error persist, as they do through the Go
pointers. -/
def resolveLoop (infos : List SubnetInfo) (vpcID : String) :
    Cluster → List Nat → Cluster × Option RunError
  | st, [] => (st, none)
  | st, i :: rest =>
    let s := subnetAt st i
    if s.id = "" then resolveLoop infos vpcID st rest
    else
      match lookupByID infos s.id with
      | none => (st, some (.subnetNotFoundInVPC s.id vpcID))
      | some cs =>
        if s.cidr = "" then
          let st2 := setCIDR st i cs.cidr
          if cs.cidr = "" then (st2, some (.subnetHasNoCIDR s.id))
          else if s.zone ≠ cs.zone then
            (st2, some (.zoneMismatch s.id s.zone cs.zone))
          else resolveLoop infos vpcID st2 rest
        else if s.cidr ≠ cs.cidr then
          (st, some (.cidrMismatch s.id s.cidr cs.cidr))
        else if s.zone ≠ cs.zone then
          (st, some (.zoneMismatch s.id s.zone cs.zone))
        else resolveLoop infos vpcID st rest

/-- Models lines 55-91: when a NetworkID is declared, look the VPC up and
run `resolveLoop` over all subnet indices. -/
def vpcResolve (cloud : Cloud) (c : Cluster) : Cluster × Option RunError :=
  if c.networkID = "" then (c, none)
  else
    match cloud c.networkID with
    | .error msg => (c, some (.cloudError msg))
    | .ok none => (c, some (.vpcNotFound c.networkID))
    | .ok (some vpcInfo) =>
      resolveLoop vpcInfo.subnets c.networkID c (List.range c.subnets.length)

/-- Models lines 134-141: re-parse a non-empty CIDR for the reserved
list (a parse failure here is unreachable but kept from the source). -/
def reservedOf (s : ClusterSubnetSpec) : Except RunError (List IPNet) :=
  if s.cidr = "" then .ok []
  else
    match parseCIDR s.cidr with
    | none => .error (.unexpectedSubnetCIDR s.name s.cidr)
    | some n => .ok [n]

/-- Models the classification loop at lines 110-142, starting at subnet
index `i`.  Returns the indices of the big (dual-stack / public /
private) subnets, the indices of the little (utility) subnets, and the
reserved blocks, all in iteration order. -/
def classify (parent : IPNet) : Nat → List ClusterSubnetSpec →
    Except RunError (List Nat × List Nat × List IPNet)
  | _, [] => .ok ([], [], [])
  | i, s :: rest =>
    -- lines 113-122: parse a pre-declared CIDR; skip subnets whose base
    -- address the parent does not contain
    let check : Except RunError Bool :=
      if s.cidr = "" then .ok true
      else
        match parseCIDR s.cidr with
        | none => .error (.invalidSubnetCIDR s.name s.cidr)
        | some n => .ok (parent.contains n.ip)
    match check with
    | .error e => .error e
    | .ok false => classify parent (i + 1) rest
    | .ok true =>
      -- lines 123-132: the role switch
      if s.ty = SubnetTypeDualStack ∨ s.ty = SubnetTypePublic ∨
          s.ty = SubnetTypePrivate then
        -- lines 134-141: record the reserved block
        match reservedOf s with
        | .error e => .error e
        | .ok ns =>
          match classify parent (i + 1) rest with
          | .error e => .error e
          | .ok (big, little, res) => .ok (i :: big, little, ns ++ res)
      else if s.ty = SubnetTypeUtility then
        match reservedOf s with
        | .error e => .error e
        | .ok ns =>
          match classify parent (i + 1) rest with
          | .error e => .error e
          | .ok (big, little, res) => .ok (big, i :: little, ns ++ res)
      else .error (.unknownSubnetType s.name s.ty)

/-- Lexicographic comparison of character lists by code point: models
Go's `<` on strings (identical for the ASCII zone names). -/
def charListLt : List Char → List Char → Bool
  | [], [] => false
  | [], _ :: _ => true
  | _ :: _, [] => false
  | a :: as, b :: bs =>
    if a.toNat < b.toNat then true
    else if b.toNat < a.toNat then false
    else charListLt as bs

/-- String comparison used by `ByZone.Less` (subnets.go lines 42-44). -/
def strLt (a b : String) : Bool := charListLt a.data b.data

/-- Insert an index into a zone-sorted index list (models the ordering
produced by `sort.Sort(ByZone(...))` at lines 144-146; `ByZone.Less`
compares the `Zone` fields with `<`). -/
def insertByZone (c : Cluster) (i : Nat) : List Nat → List Nat
  | [] => [i]
  | j :: rest =>
    if strLt (subnetAt c i).zone (subnetAt c j).zone then i :: j :: rest
    else j :: insertByZone c i rest

/-- Sort a list of subnet indices by zone, ascending. -/
def sortByZone (c : Cluster) : List Nat → List Nat
  | [] => []
  | i :: rest => insertByZone c i (sortByZone c rest)

/-- Models lines 148-152: the required slot count. -/
def cidrCountOf (bigS littleS : List Nat) : Nat :=
  bigS.length + (if littleS.length > 0 then 1 else 0)

/-- Modelled from the spec: `SplitInto1/2/4/8` from `pkg/util/subnet`
(not part of the extracted sources) split a block into `2^k` equal-size
sibling blocks of identical mask length, covering the parent exactly, in
ascending address order; splitting fails when the mask cannot be
lengthened by `k` bits. -/
def splitIntoPow (k : Nat) (n : IPNet) : Except RunError (List IPNet) :=
  if n.bits + k ≤ 32 then
    .ok ((List.range (2 ^ k)).map fun i =>
      ⟨n.ip + i * 2 ^ (32 - (n.bits + k)), n.bits + k⟩)
  else .error (.cannotSplit n.bits k)

/-- Models lines 153-162: choose SplitInto1 / 2 / 4 / 8 from the slot
count. -/
def splitParent (parent : IPNet) (cidrCount : Nat) : Except RunError (List IPNet) :=
  if cidrCount ≤ 1 then splitIntoPow 0 parent
  else if cidrCount ≤ 2 then splitIntoPow 1 parent
  else if cidrCount ≤ 4 then splitIntoPow 2 parent
  else splitIntoPow 3 parent

/-- Models the inner loop at lines 171-176: whether any reserved block
overlaps `c` (the flag is set and never cleared). -/
def overlapsAny (reserved : List IPNet) (c : IPNet) : Bool :=
  reserved.foldl (fun acc r => if overlap r c then true else acc) false

/-- Models lines 167-182: drop the split blocks that overlap a reserved
block, keeping the rest in order. -/
def removeOverlapping (reserved : List IPNet) : List IPNet → List IPNet
  | [] => []
  | c :: cs =>
    if overlapsAny reserved c then removeOverlapping reserved cs
    else c :: removeOverlapping reserved cs

/-- Models the two assignment loops: lines 196-208 (`isBig = false`, the
little/utility loop) and lines 212-227 (`isBig = true`, the big loop
with its IPv6/private skip).  Returns the final cluster, the remaining
pool, and an error if the pool ran dry. -/
def assignSubnets (isBig : Bool) :
    Cluster → List IPNet → List Nat → Cluster × List IPNet × Option RunError
  | st, pool, [] => (st, pool, none)
  | st, pool, i :: rest =>
    let s := subnetAt st i
    if s.cidr ≠ "" then assignSubnets isBig st pool rest
    else if isBig ∧ s.ipv6CIDR ≠ "" ∧ s.ty = SubnetTypePrivate then
      assignSubnets isBig st pool rest
    else
      match pool with
      | [] =>
        (st, [], some (if isBig then .insufficientBigCIDRs s.name
          else .insufficientLittleCIDRs s.name))
      | b :: pr => assignSubnets isBig (setCIDR st i b.render) pr rest

/-- Models lines 98-229: the partitioning and assignment core, run after
the early exits and the VPC resolution. -/
def coreAssign (c : Cluster) : Cluster × Option RunError :=
  match parseCIDR c.networkCIDR with
  | none => (c, some (.invalidNetworkCIDR c.networkCIDR))
  | some cidr =>
    match classify cidr 0 c.subnets with
    | .error e => (c, some e)
    | .ok (bigIdx, littleIdx, reserved) =>
      let bigS := sortByZone c bigIdx
      let littleS := sortByZone c littleIdx
      match splitParent cidr (cidrCountOf bigS littleS) with
      | .error e => (c, some e)
      | .ok blocks =>
        match removeOverlapping reserved blocks with
        | [] => (c, some .noCIDRsAvailable)
        | b0 :: brest =>
          if littleS.length > 0 then
            match splitIntoPow 3 b0 with
            | .error e => (c, some e)
            | .ok littlePool =>
              match assignSubnets false c littlePool littleS with
              | (st1, _, some e) => (st1, some e)
              | (st1, _, none) =>
                match assignSubnets true st1 brest bigS with
                | (st2, _, e) => (st2, e)
          else
            match assignSubnets true c (b0 :: brest) bigS with
            | (st2, _, e) => (st2, e)

/-- Models `assignCIDRsToSubnets` (subnets.go lines 46-230). -/
def assignCIDRsToSubnets (cloud : Cloud) (c : Cluster) : Cluster × Option RunError :=
  if allSubnetsHaveCIDRs c then (c, none)
  else
    match vpcResolve cloud c with
    | (c1, some e) => (c1, some e)
    | (c1, none) =>
      if allSubnetsHaveCIDRs c1 then (c1, none)
      else coreAssign c1

/-! ### Arithmetic lemmas about blocks -/

/-- All fields of a subnet other than `cidr`. -/
def nonCIDRFields (s : ClusterSubnetSpec) :
    String × String × String × String × String :=
  (s.name, s.zone, s.ipv6CIDR, s.ty, s.id)

/-- Relation between an input and an output cluster of any phase: only
`cidr` fields change, and only from empty to something. -/
def FrameOK (st st' : Cluster) : Prop :=
  st'.networkID = st.networkID ∧ st'.networkCIDR = st.networkCIDR ∧
  st'.subnets.length = st.subnets.length ∧
  ∀ j, nonCIDRFields (subnetAt st' j) = nonCIDRFields (subnetAt st j) ∧
    (cidrAt st' j = cidrAt st j ∨ (cidrAt st j = "" ∧ cidrAt st' j ≠ ""))

/-- Reservation set according to the spec (section 4.1): every `cidr`
already present on a declaration that falls inside ParentBlock, in
declaration order. -/
def reservedSpec (parent : IPNet) (l : List ClusterSubnetSpec) : List IPNet :=
  l.filterMap fun s =>
    if s.cidr = "" then none
    else
      match parseCIDR s.cidr with
      | none => none
      | some n => if parent.contains n.ip then some n else none

/-! ### Definitions written from the claims' own wording -/

/-- Slot count as claim C1 words it: the number of primary candidates
needing allocation, plus one if there is at least one secondary
candidate needing allocation. -/
def specNeedSlotCount (c : Cluster) : Nat :=
  (c.subnets.filter fun s => decide (s.cidr = "" ∧
    (s.ty = SubnetTypeDualStack ∨ s.ty = SubnetTypePublic ∨
      s.ty = SubnetTypePrivate))).length +
  (if (c.subnets.filter fun s => decide (s.cidr = "" ∧
      s.ty = SubnetTypeUtility)).length > 0 then 1 else 0)

/-- Number of blocks the parent is split into, as a function of the slot
count: the smallest power of two that is at least the slot count, capped
at 8 (proved as such in the claim C1 theorem). -/
def specSplitCount (slots : Nat) : Nat :=
  if slots ≤ 1 then 1 else if slots ≤ 2 then 2 else if slots ≤ 4 then 4 else 8

/-! ### Concrete inputs used by the claim theorems -/

/-- A cloud with no VPC information (never consulted in these runs). -/
def cloudNone : Cloud := fun _ => .ok none

/-- Scenario A input: two primary subnets, no reservations. -/
def clusterA : Cluster :=
  ⟨"", "10.0.0.0/16",
    [⟨"sa", "a", "", "", "Public", ""⟩, ⟨"sb", "b", "", "", "Private", ""⟩]⟩

/-- Scenario A expected output. -/
def clusterARes : Cluster :=
  ⟨"", "10.0.0.0/16",
    [⟨"sa", "a", "10.0.0.0/17", "", "Public", ""⟩,
     ⟨"sb", "b", "10.0.128.0/17", "", "Private", ""⟩]⟩


/-- Input refuting claim C3 as stated: the pre-declared cidr
10.0.0.0/8 has its base address outside the parent 10.5.0.0/16, so it is
ignored by the reservation collector, and the core then assigns the
overlapping 10.5.0.0/16 to the other subnet. -/
def clusterOutside : Cluster :=
  ⟨"", "10.5.0.0/16",
    [⟨"x", "a", "10.0.0.0/8", "", "Public", ""⟩,
     ⟨"y", "b", "", "", "Public", ""⟩]⟩

/-- Result of the run on `clusterOutside`. -/
def clusterOutsideRes : Cluster :=
  ⟨"", "10.5.0.0/16",
    [⟨"x", "a", "10.0.0.0/8", "", "Public", ""⟩,
     ⟨"y", "b", "10.5.0.0/16", "", "Public", ""⟩]⟩

/-- A cluster whose only subnet already has a cidr. -/
def clusterFull : Cluster :=
  ⟨"", "10.0.0.0/16", [⟨"s", "a", "10.0.0.0/16", "", "Public", ""⟩]⟩

/-- All split blocks of this input collide with the reserved 10.0.0.0/16. -/
def clusterAllReserved : Cluster :=
  ⟨"", "10.0.0.0/16",
    [⟨"s1", "a", "10.0.0.0/16", "", "Public", ""⟩,
     ⟨"s2", "b", "", "", "Public", ""⟩]⟩

/-- A cluster whose only subnet has an unrecognized role but a complete
cidr, so the run early-exits successfully. -/
def clusterBadRoleFull : Cluster :=
  ⟨"", "10.0.0.0/16", [⟨"g", "a", "10.0.0.0/16", "", "Gateway", ""⟩]⟩

/-- A cluster with an unknown-role subnet that needs allocation. -/
def clusterBadRole : Cluster :=
  ⟨"", "10.0.0.0/16", [⟨"g", "a", "", "", "Gateway", ""⟩]⟩

/-- Input refuting claim C1 as stated: one primary subnet already has an
in-parent cidr, so only one primary subnet needs allocation, yet the
parent is split into 2 blocks because pre-declared in-parent subnets are
also counted. -/
def clusterPreDeclared : Cluster :=
  ⟨"", "10.0.0.0/16",
    [⟨"a", "a", "10.0.0.0/17", "", "Public", ""⟩,
     ⟨"b", "b", "", "", "Public", ""⟩]⟩

/-- Nine primary subnets: one more than the 8 blocks the split can give. -/
def clusterNine : Cluster :=
  ⟨"", "10.0.0.0/16",
    [⟨"s1", "a", "", "", "Public", ""⟩, ⟨"s2", "b", "", "", "Public", ""⟩,
     ⟨"s3", "c", "", "", "Public", ""⟩, ⟨"s4", "d", "", "", "Public", ""⟩,
     ⟨"s5", "e", "", "", "Public", ""⟩, ⟨"s6", "f", "", "", "Public", ""⟩,
     ⟨"s7", "g", "", "", "Public", ""⟩, ⟨"s8", "h", "", "", "Public", ""⟩,
     ⟨"s9", "i", "", "", "Public", ""⟩]⟩

/-- The run on `clusterNine` stops at subnet s9 with the first eight
subnets keeping their fresh assignments. -/
def clusterNineRes : Cluster :=
  ⟨"", "10.0.0.0/16",
    [⟨"s1", "a", "10.0.0.0/19", "", "Public", ""⟩,
     ⟨"s2", "b", "10.0.32.0/19", "", "Public", ""⟩,
     ⟨"s3", "c", "10.0.64.0/19", "", "Public", ""⟩,
     ⟨"s4", "d", "10.0.96.0/19", "", "Public", ""⟩,
     ⟨"s5", "e", "10.0.128.0/19", "", "Public", ""⟩,
     ⟨"s6", "f", "10.0.160.0/19", "", "Public", ""⟩,
     ⟨"s7", "g", "10.0.192.0/19", "", "Public", ""⟩,
     ⟨"s8", "h", "10.0.224.0/19", "", "Public", ""⟩,
     ⟨"s9", "i", "", "", "Public", ""⟩]⟩

/-- A private subnet with an ipv6 cidr next to a plain public subnet. -/
def clusterSkip : Cluster :=
  ⟨"", "10.0.0.0/16",
    [⟨"pr", "a", "", "fd00::/8", "Private", ""⟩,
     ⟨"pu", "b", "", "", "Public", ""⟩]⟩

/-- Result of the run on `clusterSkip`: the private ipv6 subnet keeps an
empty cidr while the public subnet takes the first block. -/
def clusterSkipRes : Cluster :=
  ⟨"", "10.0.0.0/16",
    [⟨"pr", "a", "", "fd00::/8", "Private", ""⟩,
     ⟨"pu", "b", "10.0.0.0/17", "", "Public", ""⟩]⟩

/-- One public and one utility subnet, both needing a cidr. -/
def clusterUtil : Cluster :=
  ⟨"", "10.0.0.0/16",
    [⟨"p", "a", "", "", "Public", ""⟩,
     ⟨"u", "b", "", "", "Utility", ""⟩]⟩

/-- Result of the run on `clusterUtil`: the public subnet takes the
second /17 block while the utility subnet gets a /20 carved out of the
first /17 block. -/
def clusterUtilRes : Cluster :=
  ⟨"", "10.0.0.0/16",
    [⟨"p", "a", "10.0.128.0/17", "", "Public", ""⟩,
     ⟨"u", "b", "10.0.0.0/20", "", "Utility", ""⟩]⟩

theorem size_pos (n : IPNet) : 0 < n.size :=
  Nat.pow_pos (by norm_num)

theorem maskAddr_le (a bits : Nat) : maskAddr a bits ≤ a :=
  Nat.div_mul_le_self a _

theorem lt_maskAddr_add (a bits : Nat) :
    a < maskAddr a bits + 2 ^ (32 - bits) := by
  have h := Nat.mod_add_div' a (2 ^ (32 - bits))
  have hm := Nat.mod_lt a (y := 2 ^ (32 - bits)) (Nat.pow_pos (by norm_num))
  unfold maskAddr
  omega

theorem maskAddr_eq_iff {a bits base : Nat} (hb : maskAddr base bits = base) :
    maskAddr a bits = base ↔ base ≤ a ∧ a < base + 2 ^ (32 - bits) := by
  constructor
  · intro h
    refine ⟨h ▸ maskAddr_le a bits, ?_⟩
    have := lt_maskAddr_add a bits
    omega
  · rintro ⟨h1, h2⟩
    have hdiv : a / 2 ^ (32 - bits) = base / 2 ^ (32 - bits) := by
      apply Nat.div_eq_of_lt_le
      · rw [show base / 2 ^ (32 - bits) * 2 ^ (32 - bits) = base from hb]
        exact h1
      · rw [Nat.succ_mul, show base / 2 ^ (32 - bits) * 2 ^ (32 - bits) = base from hb]
        exact h2
    unfold maskAddr
    rw [hdiv]
    exact hb

theorem contains_iff {n : IPNet} (hc : maskAddr n.ip n.bits = n.ip) (a : Nat) :
    n.contains a = true ↔ n.ip ≤ a ∧ a < n.ip + n.size := by
  unfold IPNet.contains IPNet.size
  rw [decide_eq_true_iff]
  exact maskAddr_eq_iff hc

theorem overlap_comm (a b : IPNet) : overlap a b = overlap b a := by
  unfold overlap
  by_cases h : a.ip < b.ip + b.size ∧ b.ip < a.ip + a.size
  · rw [decide_eq_true h, decide_eq_true ⟨h.2, h.1⟩]
  · rw [decide_eq_false h, decide_eq_false (fun hh => h ⟨hh.2, hh.1⟩)]

theorem overlap_iff (a b : IPNet) :
    overlap a b = true ↔ a.ip < b.ip + b.size ∧ b.ip < a.ip + a.size := by
  unfold overlap; exact decide_eq_true_iff

theorem within_iff (b p : IPNet) :
    b.within p = true ↔ p.ip ≤ b.ip ∧ b.ip + b.size ≤ p.ip + p.size := by
  unfold IPNet.within; exact decide_eq_true_iff

theorem within_refl (b : IPNet) : b.within b = true := by
  rw [within_iff]; omega

theorem within_trans {a b c : IPNet} (h1 : a.within b = true)
    (h2 : b.within c = true) : a.within c = true := by
  rw [within_iff] at *
  omega

theorem overlap_of_within {b bb x : IPNet} (hw : b.within bb = true)
    (ho : overlap b x = true) : overlap bb x = true := by
  rw [within_iff] at hw
  rw [overlap_iff] at *
  have := size_pos b
  omega

theorem overlap_false_of_within {b bb x : IPNet} (hw : b.within bb = true)
    (ho : overlap bb x = false) : overlap b x = false := by
  by_contra h
  rw [overlap_of_within hw (by revert h; cases overlap b x <;> simp)] at ho
  cases ho

/-! ### Pointwise lemmas about cluster state updates -/

theorem length_setCIDR (c : Cluster) (i : Nat) (v : String) :
    (setCIDR c i v).subnets.length = c.subnets.length := by
  unfold setCIDR
  simp

theorem networkCIDR_setCIDR (c : Cluster) (i : Nat) (v : String) :
    (setCIDR c i v).networkCIDR = c.networkCIDR := rfl

theorem subnetAt_setCIDR (c : Cluster) (i : Nat) (v : String) (j : Nat) :
    subnetAt (setCIDR c i v) j =
      if i = j ∧ i < c.subnets.length then { subnetAt c i with cidr := v }
      else subnetAt c j := by
  unfold setCIDR subnetAt
  simp only [List.getD_eq_getElem?_getD, List.getElem?_set]
  by_cases h1 : i = j
  · subst h1
    by_cases h2 : i < c.subnets.length
    · simp [h2]
    · rw [List.getElem?_eq_none (by omega)]
      simp [h2]
  · simp [h1, fun hh : i = j ∧ i < c.subnets.length => h1 hh.1]

theorem subnetAt_setCIDR_ne (c : Cluster) {i j : Nat} (v : String)
    (h : i ≠ j) : subnetAt (setCIDR c i v) j = subnetAt c j := by
  rw [subnetAt_setCIDR]
  simp [h]

theorem cidrAt_setCIDR_self (c : Cluster) {i : Nat} (v : String)
    (h : i < c.subnets.length) : cidrAt (setCIDR c i v) i = v := by
  unfold cidrAt
  rw [subnetAt_setCIDR]
  simp [h]

theorem nonCIDRFields_setCIDR (c : Cluster) (i : Nat) (v : String) (j : Nat) :
    nonCIDRFields (subnetAt (setCIDR c i v) j) =
      nonCIDRFields (subnetAt c j) := by
  rw [subnetAt_setCIDR]
  by_cases h : i = j ∧ i < c.subnets.length
  · rw [if_pos h]
    obtain ⟨h1, h2⟩ := h
    subst h1
    rfl
  · rw [if_neg h]

/-! ### Parsing and rendering lemmas -/

theorem digitVal_digitChar {d : Nat} (h : d < 10) :
    digitVal (digitChar d) = some d := by
  interval_cases d <;> rfl

theorem digitChar_ne_dot {d : Nat} (h : d < 10) : digitChar d ≠ '.' := by
  interval_cases d <;> decide

theorem digitChar_ne_slash {d : Nat} (h : d < 10) : digitChar d ≠ '/' := by
  interval_cases d <;> decide

theorem digitChar_ne_zero {d : Nat} (h : d < 10) (h0 : d ≠ 0) :
    digitChar d ≠ '0' := by
  interval_cases d <;> simp_all <;> decide

theorem natToChars_mem {n : Nat} (hn : n < 1000) {c : Char}
    (h : c ∈ natToChars n) : ∃ d, d < 10 ∧ c = digitChar d := by
  unfold natToChars at h
  split at h
  · simp at h
    exact ⟨n, by omega, h⟩
  · split at h
    · simp at h
      rcases h with h | h
      · exact ⟨n / 10, by omega, h⟩
      · exact ⟨n % 10, by omega, h⟩
    · simp at h
      rcases h with h | h | h
      · exact ⟨n / 100, by omega, h⟩
      · exact ⟨n / 10 % 10, by omega, h⟩
      · exact ⟨n % 10, by omega, h⟩

theorem dot_not_mem_natToChars {n : Nat} (hn : n < 1000) :
    '.' ∉ natToChars n := by
  intro h
  obtain ⟨d, hd, hc⟩ := natToChars_mem hn h
  exact digitChar_ne_dot hd hc.symm

theorem slash_not_mem_natToChars {n : Nat} (hn : n < 1000) :
    '/' ∉ natToChars n := by
  intro h
  obtain ⟨d, hd, hc⟩ := natToChars_mem hn h
  exact digitChar_ne_slash hd hc.symm

theorem natToChars_ne_nil (n : Nat) : natToChars n ≠ [] := by
  unfold natToChars
  split
  · simp
  · split <;> simp

theorem readNat_natToChars {n : Nat} (hn : n < 1000) :
    readNat (natToChars n) = some n := by
  unfold natToChars readNat
  split
  · rename_i h
    rw [if_neg (by simp)]
    unfold readNatAux
    rw [digitVal_digitChar h]
    simp [readNatAux]
  · split
    · rename_i h1 h2
      rw [if_neg (by simp)]
      unfold readNatAux
      rw [digitVal_digitChar (by omega)]
      unfold readNatAux
      rw [digitVal_digitChar (by omega)]
      simp [readNatAux]
      omega
    · rename_i h1 h2
      rw [if_neg (by simp)]
      unfold readNatAux
      rw [digitVal_digitChar (by omega)]
      unfold readNatAux
      rw [digitVal_digitChar (by omega)]
      unfold readNatAux
      rw [digitVal_digitChar (by omega)]
      simp [readNatAux]
      omega

theorem natToChars_no_leading_zero {n : Nat} (h10 : 10 ≤ n) (hn : n < 1000) :
    (natToChars n).headD ' ' ≠ '0' := by
  unfold natToChars
  rw [if_neg (by omega)]
  split
  · rename_i h
    simpa using digitChar_ne_zero (d := n / 10) (by omega) (by omega)
  · rename_i h
    simpa using digitChar_ne_zero (d := n / 100) (by omega) (by omega)

theorem parseOctet_natToChars {n : Nat} (hn : n ≤ 255) :
    parseOctet (natToChars n) = some n := by
  unfold parseOctet
  rw [readNat_natToChars (by omega)]
  dsimp only
  rw [if_neg (by omega)]
  by_cases h10 : n < 10
  · rw [if_neg]
    intro hc
    have hl : (natToChars n).length = 1 := by
      unfold natToChars
      rw [if_pos h10]
      rfl
    omega
  · rw [if_neg]
    intro hc
    exact natToChars_no_leading_zero (by omega) (by omega) hc.2

theorem parseBits_natToChars {n : Nat} (hn : n ≤ 32) :
    parseBits (natToChars n) = some n := by
  unfold parseBits
  rw [readNat_natToChars (by omega)]
  dsimp only
  rw [if_pos hn]

theorem splitOnChar_ne_nil (sep : Char) (cs : List Char) :
    splitOnChar sep cs ≠ [] := by
  cases cs with
  | nil => simp [splitOnChar]
  | cons c cs =>
    rw [splitOnChar]
    split
    · split <;> simp
    · split <;> simp

theorem splitOnChar_not_mem {sep : Char} {cs : List Char} (h : sep ∉ cs) :
    splitOnChar sep cs = [cs] := by
  induction cs with
  | nil => rfl
  | cons c cs ih =>
    have hc : ¬(c = sep) := fun he => h (by simp [he])
    have hcs : sep ∉ cs := fun hm => h (List.mem_cons_of_mem c hm)
    rw [splitOnChar, ih hcs]
    dsimp only
    rw [if_neg hc]

theorem splitOnChar_append {sep : Char} {xs ys : List Char} (h : sep ∉ xs) :
    splitOnChar sep (xs ++ sep :: ys) = xs :: splitOnChar sep ys := by
  induction xs with
  | nil =>
    rw [List.nil_append, splitOnChar]
    cases hys : splitOnChar sep ys with
    | nil => exact absurd hys (splitOnChar_ne_nil sep ys)
    | cons g gs =>
      dsimp only
      rw [if_pos rfl]
  | cons x xs ih =>
    have hx : ¬(x = sep) := fun he => h (by simp [he])
    have hxs : sep ∉ xs := fun hm => h (List.mem_cons_of_mem x hm)
    rw [List.cons_append, splitOnChar, ih hxs]
    dsimp only
    rw [if_neg hx]

theorem parseCIDR_render {n : IPNet} (hc : n.Canonical) :
    parseCIDR n.render = some n := by
  obtain ⟨ip, bits⟩ := n
  obtain ⟨hbits, hip, hmask⟩ := hc
  dsimp only at hbits hip hmask
  unfold IPNet.render parseCIDR
  dsimp only
  have h1 : ip / 16777216 % 256 ≤ 255 := by omega
  have h2 : ip / 65536 % 256 ≤ 255 := by omega
  have h3 : ip / 256 % 256 ≤ 255 := by omega
  have h4 : ip % 256 ≤ 255 := by omega
  have hslash : ('/' : Char) ∉ natToChars (ip / 16777216 % 256) ++ '.' ::
      natToChars (ip / 65536 % 256) ++ '.' :: natToChars (ip / 256 % 256) ++
      '.' :: natToChars (ip % 256) := by
    intro hm
    rcases List.mem_append.mp hm with h | h
    · rcases List.mem_append.mp h with h | h
      · rcases List.mem_append.mp h with h | h
        · exact slash_not_mem_natToChars (by omega) h
        · rcases List.mem_cons.mp h with h | h
          · exact absurd h (by decide)
          · exact slash_not_mem_natToChars (by omega) h
      · rcases List.mem_cons.mp h with h | h
        · exact absurd h (by decide)
        · exact slash_not_mem_natToChars (by omega) h
    · rcases List.mem_cons.mp h with h | h
      · exact absurd h (by decide)
      · exact slash_not_mem_natToChars (by omega) h
  rw [splitOnChar_append hslash,
    splitOnChar_not_mem (slash_not_mem_natToChars (by omega))]
  dsimp only
  unfold parseIPv4
  rw [show natToChars (ip / 16777216 % 256) ++ '.' ::
      natToChars (ip / 65536 % 256) ++ '.' :: natToChars (ip / 256 % 256) ++
      '.' :: natToChars (ip % 256) =
      natToChars (ip / 16777216 % 256) ++ ('.' ::
      (natToChars (ip / 65536 % 256) ++ ('.' :: (natToChars (ip / 256 % 256) ++
      ('.' :: natToChars (ip % 256)))))) from by simp]
  rw [splitOnChar_append (dot_not_mem_natToChars (by omega)),
    splitOnChar_append (dot_not_mem_natToChars (by omega)),
    splitOnChar_append (dot_not_mem_natToChars (by omega)),
    splitOnChar_not_mem (dot_not_mem_natToChars (by omega))]
  dsimp only
  rw [parseOctet_natToChars h1, parseOctet_natToChars h2,
    parseOctet_natToChars h3, parseOctet_natToChars h4,
    parseBits_natToChars hbits]
  dsimp only
  have hrecomp : ip / 16777216 % 256 * 16777216 + ip / 65536 % 256 * 65536 +
      ip / 256 % 256 * 256 + ip % 256 = ip := by omega
  rw [hrecomp, hmask]

theorem render_ne_empty (n : IPNet) : n.render ≠ "" := by
  unfold IPNet.render
  intro h
  have hd : (natToChars (n.ip / 16777216 % 256) ++ '.' ::
      natToChars (n.ip / 65536 % 256) ++ '.' :: natToChars (n.ip / 256 % 256) ++
      '.' :: natToChars (n.ip % 256) ++ '/' :: natToChars n.bits) = [] := by
    have h2 := congrArg String.data h
    simp at h2
  rcases hn : natToChars (n.ip / 16777216 % 256) with _ | ⟨c, cs⟩
  · exact natToChars_ne_nil _ hn
  · rw [hn] at hd
    simp at hd

theorem parseOctet_le {cs : List Char} {v : Nat} (h : parseOctet cs = some v) :
    v ≤ 255 := by
  unfold parseOctet at h
  split at h
  · cases h
  · rename_i v2 hv2
    split at h
    · cases h
    · split at h
      · cases h
      · injection h with h
        omega

theorem parseCIDR_canonical {s : String} {n : IPNet}
    (h : parseCIDR s = some n) : n.Canonical := by
  unfold parseCIDR at h
  split at h
  · rename_i addr mask heq
    split at h
    · rename_i ip bits hip hbits
      injection h with h
      subst h
      have hb : bits ≤ 32 := by
        unfold parseBits at hbits
        split at hbits
        · cases hbits
        · split at hbits
          · injection hbits with hbits
            omega
          · cases hbits
      have hiplt : ip < 2 ^ 32 := by
        unfold parseIPv4 at hip
        split at hip
        · rename_i a b c d heq2
          split at hip
          · rename_i o1 o2 o3 o4 h1 h2 h3 h4
            injection hip with hip
            have e1 : o1 ≤ 255 := parseOctet_le h1
            have e2 : o2 ≤ 255 := parseOctet_le h2
            have e3 : o3 ≤ 255 := parseOctet_le h3
            have e4 : o4 ≤ 255 := parseOctet_le h4
            omega
          · cases hip
        · cases hip
      refine ⟨hb, ?_, ?_⟩
      · exact Nat.lt_of_le_of_lt (maskAddr_le ip bits) hiplt
      · unfold maskAddr
        rw [Nat.mul_div_cancel _ (Nat.pow_pos (by norm_num))]
    · cases h
  · cases h

/-! ### Frame properties of the state-mutating phases -/

theorem frameOK_refl (st : Cluster) : FrameOK st st :=
  ⟨rfl, rfl, rfl, fun _ => ⟨rfl, Or.inl rfl⟩⟩

theorem frameOK_trans {s1 s2 s3 : Cluster} (h1 : FrameOK s1 s2)
    (h2 : FrameOK s2 s3) : FrameOK s1 s3 := by
  obtain ⟨a1, b1, c1, d1⟩ := h1
  obtain ⟨a2, b2, c2, d2⟩ := h2
  refine ⟨a2.trans a1, b2.trans b1, c2.trans c1, fun j => ?_⟩
  obtain ⟨e1, f1⟩ := d1 j
  obtain ⟨e2, f2⟩ := d2 j
  refine ⟨e2.trans e1, ?_⟩
  rcases f1 with f1 | f1 <;> rcases f2 with f2 | f2
  · exact Or.inl (f2.trans f1)
  · exact Or.inr ⟨f1 ▸ f2.1, f2.2⟩
  · exact Or.inr ⟨f1.1, f2 ▸ f1.2⟩
  · exact Or.inr ⟨f1.1, f2.2⟩

theorem frameOK_setCIDR {st : Cluster} {i : Nat} (v : String)
    (h : cidrAt st i = "") : FrameOK st (setCIDR st i v) := by
  refine ⟨rfl, rfl, length_setCIDR st i v, fun j => ?_⟩
  refine ⟨nonCIDRFields_setCIDR st i v j, ?_⟩
  unfold cidrAt
  rw [subnetAt_setCIDR]
  by_cases hij : i = j ∧ i < st.subnets.length
  · rw [if_pos hij]
    by_cases hv : v = ""
    · subst hv
      exact Or.inl (by rw [← hij.1]; exact h.symm)
    · exact Or.inr ⟨by rw [← hij.1]; exact h, hv⟩
  · rw [if_neg hij]
    exact Or.inl rfl

theorem resolveLoop_frame {infos : List SubnetInfo} {vpcID : String} :
    ∀ {l : List Nat} {st st' : Cluster} {e : Option RunError},
    resolveLoop infos vpcID st l = (st', e) → FrameOK st st' := by
  intro l
  induction l with
  | nil =>
    intro st st' e h
    rw [resolveLoop] at h
    injection h with h1 h2
    exact h1 ▸ frameOK_refl st
  | cons i rest ih =>
    intro st st' e h
    rw [resolveLoop] at h
    dsimp only at h
    split at h
    · exact ih h
    · split at h
      · injection h with h1 h2
        exact h1 ▸ frameOK_refl st
      · rename_i cs hcs
        split at h
        · rename_i hempty
          split at h
          · injection h with h1 h2
            exact h1 ▸ frameOK_setCIDR cs.cidr hempty
          · split at h
            · injection h with h1 h2
              exact h1 ▸ frameOK_setCIDR cs.cidr hempty
            · exact frameOK_trans (frameOK_setCIDR cs.cidr hempty) (ih h)
        · split at h
          · injection h with h1 h2
            exact h1 ▸ frameOK_refl st
          · split at h
            · injection h with h1 h2
              exact h1 ▸ frameOK_refl st
            · exact ih h

theorem assignSubnets_frame {isBig : Bool} :
    ∀ {l : List Nat} {st st' : Cluster} {pool pool' : List IPNet}
    {e : Option RunError},
    assignSubnets isBig st pool l = (st', pool', e) → FrameOK st st' := by
  intro l
  induction l with
  | nil =>
    intro st st' pool pool' e h
    rw [assignSubnets.eq_def] at h
    dsimp only at h
    injection h with h1 h2
    exact h1 ▸ frameOK_refl st
  | cons i rest ih =>
    intro st st' pool pool' e h
    rw [assignSubnets.eq_def] at h
    dsimp only at h
    split at h
    · exact ih h
    · split at h
      · exact ih h
      · rename_i hne hskip
        split at h
        · injection h with h1 h2
          exact h1 ▸ frameOK_refl st
        · rename_i b pr
          have hempty : cidrAt st i = "" := by
            unfold cidrAt
            by_contra hc
            exact hne hc
          exact frameOK_trans (frameOK_setCIDR b.render hempty) (ih h)

theorem assignSubnets_untouched {isBig : Bool} :
    ∀ {l : List Nat} {st st' : Cluster} {pool pool' : List IPNet}
    {e : Option RunError} {j : Nat},
    assignSubnets isBig st pool l = (st', pool', e) → j ∉ l →
    cidrAt st' j = cidrAt st j := by
  intro l
  induction l with
  | nil =>
    intro st st' pool pool' e j h hj
    rw [assignSubnets.eq_def] at h
    dsimp only at h
    injection h with h1 h2
    rw [← h1]
  | cons i rest ih =>
    intro st st' pool pool' e j h hj
    have hji : j ≠ i := fun he => hj (he ▸ List.mem_cons_self i rest)
    have hjr : j ∉ rest := fun hm => hj (List.mem_cons_of_mem i hm)
    rw [assignSubnets.eq_def] at h
    dsimp only at h
    split at h
    · exact ih h hjr
    · split at h
      · exact ih h hjr
      · split at h
        · injection h with h1 h2
          rw [← h1]
        · rename_i b pr
          rw [ih h hjr]
          unfold cidrAt
          rw [subnetAt_setCIDR_ne st b.render (fun he => hji he.symm)]

theorem assignSubnets_changed {isBig : Bool} :
    ∀ {l : List Nat} {st st' : Cluster} {pool pool' : List IPNet}
    {e : Option RunError} {j : Nat},
    assignSubnets isBig st pool l = (st', pool', e) →
    cidrAt st' j ≠ cidrAt st j →
    j ∈ l ∧ cidrAt st j = "" ∧ ∃ b ∈ pool, cidrAt st' j = b.render := by
  intro l
  induction l with
  | nil =>
    intro st st' pool pool' e j h hj
    rw [assignSubnets.eq_def] at h
    dsimp only at h
    injection h with h1 h2
    exact absurd (h1 ▸ rfl) hj
  | cons i rest ih =>
    intro st st' pool pool' e j h hj
    rw [assignSubnets.eq_def] at h
    dsimp only at h
    split at h
    · obtain ⟨hm, he, b, hb, hr⟩ := ih h hj
      exact ⟨List.mem_cons_of_mem i hm, he, b, hb, hr⟩
    · split at h
      · obtain ⟨hm, he, b, hb, hr⟩ := ih h hj
        exact ⟨List.mem_cons_of_mem i hm, he, b, hb, hr⟩
      · rename_i hne hskip
        split at h
        · injection h with h1 h2
          exact absurd (h1 ▸ rfl) hj
        · rename_i b pr
          have hempty : cidrAt st i = "" := by
            unfold cidrAt
            by_contra hc
            exact hne hc
          by_cases hch : cidrAt (setCIDR st i b.render) j = cidrAt st j
          · have hj2 : cidrAt st' j ≠ cidrAt (setCIDR st i b.render) j := by
              rw [hch]; exact hj
            obtain ⟨hm, he, b', hb', hr⟩ := ih h hj2
            exact ⟨List.mem_cons_of_mem i hm, hch ▸ he,
              b', List.mem_cons_of_mem b hb', hr⟩
          · have hij : i = j := by
              by_contra hne2
              exact hch (by
                unfold cidrAt
                rw [subnetAt_setCIDR_ne st b.render hne2])
            subst hij
            have hlt : i < st.subnets.length := by
              by_contra hge
              exact hch (by
                unfold cidrAt
                rw [subnetAt_setCIDR]
                rw [if_neg (fun hh => hge hh.2)])
            have hset : cidrAt (setCIDR st i b.render) i = b.render :=
              cidrAt_setCIDR_self st b.render hlt
            by_cases hch2 : cidrAt st' i = cidrAt (setCIDR st i b.render) i
            · exact ⟨List.mem_cons_self i rest, hempty, b,
                List.mem_cons_self b pr, hch2.trans hset⟩
            · obtain ⟨hm, he, b', hb', hr⟩ := ih h hch2
              exact ⟨List.mem_cons_self i rest, hempty, b',
                List.mem_cons_of_mem b hb', hr⟩

theorem assignSubnets_pairwise {isBig : Bool} :
    ∀ {l : List Nat} {st st' : Cluster} {pool pool' : List IPNet}
    {e : Option RunError},
    assignSubnets isBig st pool l = (st', pool', e) →
    l.Nodup → pool.Pairwise (fun a b => overlap a b = false) →
    ∀ i j, i ≠ j → cidrAt st' i ≠ cidrAt st i → cidrAt st' j ≠ cidrAt st j →
    ∃ b b', b ∈ pool ∧ b' ∈ pool ∧ cidrAt st' i = b.render ∧
      cidrAt st' j = b'.render ∧ overlap b b' = false := by
  intro l
  induction l with
  | nil =>
    intro st st' pool pool' e h hnd hpw i j hij hi hj
    rw [assignSubnets.eq_def] at h
    dsimp only at h
    injection h with h1 h2
    exact absurd (h1 ▸ rfl) hi
  | cons x rest ih =>
    intro st st' pool pool' e h hnd hpw i j hij hi hj
    have hndr : rest.Nodup := hnd.of_cons
    have hxr : x ∉ rest := by
      rw [List.nodup_cons] at hnd
      exact hnd.1
    rw [assignSubnets.eq_def] at h
    dsimp only at h
    split at h
    · exact ih h hndr hpw i j hij hi hj
    · split at h
      · exact ih h hndr hpw i j hij hi hj
      · rename_i hne hskip
        split at h
        · injection h with h1 h2
          exact absurd (h1 ▸ rfl) hi
        · rename_i b pr
          have hempty : cidrAt st x = "" := by
            unfold cidrAt
            by_contra hc
            exact hne hc
          have hpwr : pr.Pairwise (fun a b => overlap a b = false) :=
            hpw.of_cons
          have hbpr : ∀ b' ∈ pr, overlap b b' = false :=
            fun b' hb' => List.rel_of_pairwise_cons hpw hb'
          have hsetpt : ∀ k, k ≠ x →
              cidrAt (setCIDR st x b.render) k = cidrAt st k := by
            intro k hk
            unfold cidrAt
            rw [subnetAt_setCIDR_ne st b.render (fun he => hk he.symm)]
          -- whichever of i, j is x (if any) received block b and was not
          -- touched again; any other changed index received a block of pr
          by_cases hix : i = x
          · subst hix
            have hjx : j ≠ i := fun he => hij he.symm
            have hsi : cidrAt st' i = cidrAt (setCIDR st i b.render) i :=
              assignSubnets_untouched h hxr
            have hch2 : cidrAt (setCIDR st i b.render) i ≠ cidrAt st i := by
              rw [← hsi]; exact hi
            have hlt : i < st.subnets.length := by
              by_contra hge
              exact hch2 (by
                unfold cidrAt
                rw [subnetAt_setCIDR, if_neg (fun hh => hge hh.2)])
            have hj2 : cidrAt st' j ≠ cidrAt (setCIDR st i b.render) j := by
              rw [hsetpt j hjx]
              exact hj
            obtain ⟨hm, he, b', hb', hr⟩ := assignSubnets_changed h hj2
            exact ⟨b, b', List.mem_cons_self b pr, List.mem_cons_of_mem b hb',
              hsi.trans (cidrAt_setCIDR_self st b.render hlt), hr, hbpr b' hb'⟩
          · by_cases hjx : j = x
            · subst hjx
              have hsj : cidrAt st' j = cidrAt (setCIDR st j b.render) j :=
                assignSubnets_untouched h hxr
              have hch2 : cidrAt (setCIDR st j b.render) j ≠ cidrAt st j := by
                rw [← hsj]; exact hj
              have hlt : j < st.subnets.length := by
                by_contra hge
                exact hch2 (by
                  unfold cidrAt
                  rw [subnetAt_setCIDR, if_neg (fun hh => hge hh.2)])
              have hi2 : cidrAt st' i ≠ cidrAt (setCIDR st j b.render) i := by
                rw [hsetpt i hix]
                exact hi
              obtain ⟨hm, he, b', hb', hr⟩ := assignSubnets_changed h hi2
              refine ⟨b', b, List.mem_cons_of_mem b hb', List.mem_cons_self b pr,
                hr, hsj.trans (cidrAt_setCIDR_self st b.render hlt), ?_⟩
              rw [overlap_comm]
              exact hbpr b' hb'
            · have hi2 : cidrAt st' i ≠ cidrAt (setCIDR st x b.render) i := by
                rw [hsetpt i hix]; exact hi
              have hj2 : cidrAt st' j ≠ cidrAt (setCIDR st x b.render) j := by
                rw [hsetpt j hjx]; exact hj
              obtain ⟨b1, b2, hb1, hb2, hr1, hr2, hov⟩ :=
                ih h hndr hpwr i j hij hi2 hj2
              exact ⟨b1, b2, List.mem_cons_of_mem b hb1,
                List.mem_cons_of_mem b hb2, hr1, hr2, hov⟩

theorem assignSubnets_error {isBig : Bool} :
    ∀ {l : List Nat} {st st' : Cluster} {pool pool' : List IPNet}
    {e : RunError},
    assignSubnets isBig st pool l = (st', pool', some e) →
    ∃ i ∈ l, cidrAt st' i = "" ∧
      e = (if isBig then RunError.insufficientBigCIDRs (subnetAt st' i).name
        else RunError.insufficientLittleCIDRs (subnetAt st' i).name) := by
  intro l
  induction l with
  | nil =>
    intro st st' pool pool' e h
    rw [assignSubnets.eq_def] at h
    dsimp only at h
    injection h with h1 h2
    cases h2
  | cons i rest ih =>
    intro st st' pool pool' e h
    rw [assignSubnets.eq_def] at h
    dsimp only at h
    split at h
    · obtain ⟨k, hk, hc, he⟩ := ih h
      exact ⟨k, List.mem_cons_of_mem i hk, hc, he⟩
    · split at h
      · obtain ⟨k, hk, hc, he⟩ := ih h
        exact ⟨k, List.mem_cons_of_mem i hk, hc, he⟩
      · rename_i hne hskip
        split at h
        · injection h with h1 h23
          injection h23 with h2 h3
          injection h3 with h3
          refine ⟨i, List.mem_cons_self i rest, ?_, ?_⟩
          · rw [← h1]
            unfold cidrAt
            by_contra hc
            exact hne hc
          · rw [← h3, ← h1]
        · obtain ⟨k, hk, hc, he⟩ := ih h
          exact ⟨k, List.mem_cons_of_mem i hk, hc, he⟩


/-! ### Sorting lemmas -/

theorem insertByZone_perm (c : Cluster) (i : Nat) (l : List Nat) :
    (insertByZone c i l).Perm (i :: l) := by
  induction l with
  | nil => exact List.Perm.refl _
  | cons j rest ih =>
    rw [insertByZone]
    split
    · exact List.Perm.refl _
    · exact (ih.cons j).trans (List.Perm.swap i j rest)

theorem sortByZone_perm (c : Cluster) (l : List Nat) :
    (sortByZone c l).Perm l := by
  induction l with
  | nil => exact List.Perm.refl _
  | cons i rest ih =>
    rw [sortByZone]
    exact (insertByZone_perm c i (sortByZone c rest)).trans (ih.cons i)

theorem sortByZone_mem (c : Cluster) {l : List Nat} {x : Nat} :
    x ∈ sortByZone c l ↔ x ∈ l :=
  (sortByZone_perm c l).mem_iff

theorem sortByZone_nodup (c : Cluster) {l : List Nat} (h : l.Nodup) :
    (sortByZone c l).Nodup :=
  (sortByZone_perm c l).nodup_iff.mpr h

theorem sortByZone_length (c : Cluster) (l : List Nat) :
    (sortByZone c l).length = l.length :=
  (sortByZone_perm c l).length_eq

theorem sortByZone_eq_nil (c : Cluster) {l : List Nat} :
    sortByZone c l = [] ↔ l = [] := by
  constructor
  · intro h
    have := sortByZone_length c l
    rw [h] at this
    exact List.length_eq_zero.mp this.symm
  · intro h
    subst h
    rfl

/-! ### Splitting lemmas -/

theorem splitIntoPow_ok {k : Nat} {n : IPNet} {blocks : List IPNet}
    (h : splitIntoPow k n = .ok blocks) :
    n.bits + k ≤ 32 ∧
    blocks = (List.range (2 ^ k)).map fun i =>
      ⟨n.ip + i * 2 ^ (32 - (n.bits + k)), n.bits + k⟩ := by
  unfold splitIntoPow at h
  split at h
  · injection h with h
    exact ⟨by assumption, h.symm⟩
  · cases h

theorem splitIntoPow_length {k : Nat} {n : IPNet} {blocks : List IPNet}
    (h : splitIntoPow k n = .ok blocks) : blocks.length = 2 ^ k := by
  rw [(splitIntoPow_ok h).2]
  simp

theorem canonical_ip_add_size_le {n : IPNet} (hc : n.Canonical) :
    n.ip + n.size ≤ 2 ^ 32 := by
  obtain ⟨hbits, hip, hmask⟩ := hc
  unfold IPNet.size
  unfold maskAddr at hmask
  have hq : n.ip / 2 ^ (32 - n.bits) < 2 ^ n.bits := by
    apply Nat.div_lt_of_lt_mul
    calc n.ip < 2 ^ 32 := hip
      _ = 2 ^ (32 - n.bits) * 2 ^ n.bits := by
        rw [← pow_add]
        congr 1
        omega
  calc n.ip + 2 ^ (32 - n.bits)
      = n.ip / 2 ^ (32 - n.bits) * 2 ^ (32 - n.bits) + 2 ^ (32 - n.bits) := by
        rw [hmask]
    _ = (n.ip / 2 ^ (32 - n.bits) + 1) * 2 ^ (32 - n.bits) := by ring
    _ ≤ 2 ^ n.bits * 2 ^ (32 - n.bits) := by
        apply Nat.mul_le_mul_right
        omega
    _ = 2 ^ 32 := by
        rw [← pow_add]
        congr 1
        omega

theorem splitIntoPow_within {k : Nat} {n : IPNet} {blocks : List IPNet}
    (h : splitIntoPow k n = .ok blocks) :
    ∀ b ∈ blocks, b.within n = true := by
  obtain ⟨hk, hb⟩ := splitIntoPow_ok h
  subst hb
  intro b hb
  rw [List.mem_map] at hb
  obtain ⟨i, hi, rfl⟩ := hb
  rw [List.mem_range] at hi
  rw [within_iff]
  unfold IPNet.size
  dsimp only
  constructor
  · omega
  · have hpow : 2 ^ k * 2 ^ (32 - (n.bits + k)) = 2 ^ (32 - n.bits) := by
      rw [← pow_add]
      congr 1
      omega
    have hle : (i + 1) * 2 ^ (32 - (n.bits + k)) ≤ 2 ^ (32 - n.bits) := by
      rw [← hpow]
      apply Nat.mul_le_mul_right
      omega
    calc n.ip + i * 2 ^ (32 - (n.bits + k)) + 2 ^ (32 - (n.bits + k))
        = n.ip + (i + 1) * 2 ^ (32 - (n.bits + k)) := by ring
      _ ≤ n.ip + 2 ^ (32 - n.bits) := by omega

theorem splitIntoPow_pairwise {k : Nat} {n : IPNet} {blocks : List IPNet}
    (h : splitIntoPow k n = .ok blocks) :
    blocks.Pairwise (fun a b => overlap a b = false) := by
  obtain ⟨hk, hb⟩ := splitIntoPow_ok h
  subst hb
  apply List.Pairwise.map
    (S := fun a b => overlap a b = false)
    (R := fun i j : Nat => i < j)
  · intro i j hij
    dsimp only
    rw [← Bool.not_eq_true]
    rw [overlap_iff]
    unfold IPNet.size
    dsimp only
    intro hcon
    have hle : (i + 1) * 2 ^ (32 - (n.bits + k)) ≤ j * 2 ^ (32 - (n.bits + k)) :=
      Nat.mul_le_mul_right _ (by omega)
    have hexp : n.ip + i * 2 ^ (32 - (n.bits + k)) + 2 ^ (32 - (n.bits + k))
        = n.ip + (i + 1) * 2 ^ (32 - (n.bits + k)) := by ring
    omega
  · exact List.pairwise_lt_range (2 ^ k)

theorem splitIntoPow_canonical {k : Nat} {n : IPNet} {blocks : List IPNet}
    (hn : n.Canonical) (h : splitIntoPow k n = .ok blocks) :
    ∀ b ∈ blocks, b.Canonical := by
  obtain ⟨hk, hb⟩ := splitIntoPow_ok h
  subst hb
  obtain ⟨hbits, hip, hmask⟩ := hn
  intro b hb
  rw [List.mem_map] at hb
  obtain ⟨i, hi, rfl⟩ := hb
  rw [List.mem_range] at hi
  have hsub : 2 ^ (32 - (n.bits + k)) ∣ 2 ^ (32 - n.bits) :=
    pow_dvd_pow 2 (by omega)
  refine ⟨by dsimp only; omega, ?_, ?_⟩
  · have hwithin := @splitIntoPow_within k n
      ((List.range (2 ^ k)).map fun i =>
        ⟨n.ip + i * 2 ^ (32 - (n.bits + k)), n.bits + k⟩)
      (by unfold splitIntoPow; rw [if_pos hk])
      ⟨n.ip + i * 2 ^ (32 - (n.bits + k)), n.bits + k⟩
      (by
        rw [List.mem_map]
        exact ⟨i, List.mem_range.mpr hi, rfl⟩)
    rw [within_iff] at hwithin
    have hend := canonical_ip_add_size_le ⟨hbits, hip, hmask⟩
    dsimp only at hwithin ⊢
    have hszpos := size_pos ⟨n.ip + i * 2 ^ (32 - (n.bits + k)), n.bits + k⟩
    omega
  · dsimp only
    have hdvd : 2 ^ (32 - (n.bits + k)) ∣ n.ip + i * 2 ^ (32 - (n.bits + k)) := by
      apply Nat.dvd_add
      · refine dvd_trans hsub ⟨n.ip / 2 ^ (32 - n.bits), ?_⟩
        unfold maskAddr at hmask
        rw [Nat.mul_comm]
        exact hmask.symm
      · exact dvd_mul_left _ _
    unfold maskAddr
    exact Nat.div_mul_cancel hdvd

/-! ### Overlap-filter lemmas -/

theorem overlapsAny_foldl (reserved : List IPNet) (b : IPNet) (acc : Bool) :
    reserved.foldl (fun acc r => if overlap r b then true else acc) acc =
      (acc || reserved.any fun r => overlap r b) := by
  induction reserved generalizing acc with
  | nil => simp
  | cons r rest ih =>
    rw [List.foldl_cons, List.any_cons]
    by_cases h : overlap r b = true
    · rw [if_pos h, ih, h]
      simp
    · rw [if_neg h, ih]
      rw [Bool.not_eq_true] at h
      rw [h]
      simp

theorem overlapsAny_iff (reserved : List IPNet) (b : IPNet) :
    overlapsAny reserved b = true ↔ ∃ r ∈ reserved, overlap r b = true := by
  unfold overlapsAny
  rw [overlapsAny_foldl]
  simp

theorem removeOverlapping_eq_filter (reserved blocks : List IPNet) :
    removeOverlapping reserved blocks =
      blocks.filter fun b => !overlapsAny reserved b := by
  induction blocks with
  | nil => rfl
  | cons b rest ih =>
    rw [removeOverlapping, List.filter_cons]
    by_cases h : overlapsAny reserved b = true
    · rw [if_pos h, ih, h]
      rfl
    · rw [Bool.not_eq_true] at h
      rw [if_neg (by rw [h]; exact Bool.false_ne_true), ih, h]
      rfl

theorem removeOverlapping_sublist (reserved blocks : List IPNet) :
    (removeOverlapping reserved blocks).Sublist blocks := by
  rw [removeOverlapping_eq_filter]
  exact List.filter_sublist blocks

theorem removeOverlapping_no_overlap {reserved blocks : List IPNet} {b : IPNet}
    (h : b ∈ removeOverlapping reserved blocks) :
    ∀ r ∈ reserved, overlap r b = false := by
  rw [removeOverlapping_eq_filter, List.mem_filter] at h
  intro r hr
  rw [← Bool.not_eq_true]
  intro hc
  have := overlapsAny_iff reserved b |>.mpr ⟨r, hr, hc⟩
  rw [this] at h
  exact Bool.false_ne_true h.2.symm.symm |>.elim


/-! ### Classification lemmas -/

theorem reservedOf_inv {s : ClusterSubnetSpec} {ns : List IPNet}
    (h : reservedOf s = .ok ns) :
    (s.cidr = "" ∧ ns = []) ∨
    (s.cidr ≠ "" ∧ ∃ n, parseCIDR s.cidr = some n ∧ ns = [n]) := by
  unfold reservedOf at h
  split at h
  · injection h with h
    exact Or.inl ⟨by assumption, h.symm⟩
  · split at h
    · cases h
    · injection h with h
      exact Or.inr ⟨by assumption, by rename_i n hn; exact ⟨n, hn, h.symm⟩⟩

theorem classify_cons_inv {parent : IPNet} {i0 : Nat} {s : ClusterSubnetSpec}
    {rest : List ClusterSubnetSpec} {r : List Nat × List Nat × List IPNet}
    (h : classify parent i0 (s :: rest) = .ok r) :
    (∃ n, s.cidr ≠ "" ∧ parseCIDR s.cidr = some n ∧
      parent.contains n.ip = false ∧ classify parent (i0 + 1) rest = .ok r) ∨
    (∃ ns bi' li' res', reservedOf s = .ok ns ∧
      classify parent (i0 + 1) rest = .ok (bi', li', res') ∧
      (s.cidr = "" ∨ ∃ n, parseCIDR s.cidr = some n ∧
        parent.contains n.ip = true) ∧
      ((s.ty = SubnetTypeDualStack ∨ s.ty = SubnetTypePublic ∨
          s.ty = SubnetTypePrivate) ∧ r = (i0 :: bi', li', ns ++ res') ∨
        s.ty = SubnetTypeUtility ∧
          ¬(s.ty = SubnetTypeDualStack ∨ s.ty = SubnetTypePublic ∨
            s.ty = SubnetTypePrivate) ∧ r = (bi', i0 :: li', ns ++ res'))) := by
  rw [classify] at h
  have main : ∀ hh : (if s.ty = SubnetTypeDualStack ∨ s.ty = SubnetTypePublic ∨
          s.ty = SubnetTypePrivate then
        match reservedOf s with
        | .error e => .error e
        | .ok ns =>
          match classify parent (i0 + 1) rest with
          | .error e => .error e
          | .ok (big, little, res) => .ok (i0 :: big, little, ns ++ res)
      else if s.ty = SubnetTypeUtility then
        match reservedOf s with
        | .error e => .error e
        | .ok ns =>
          match classify parent (i0 + 1) rest with
          | .error e => .error e
          | .ok (big, little, res) => .ok (big, i0 :: little, ns ++ res)
      else
        (.error (.unknownSubnetType s.name s.ty) :
          Except RunError (List Nat × List Nat × List IPNet))) = .ok r,
      ∀ hpart : s.cidr = "" ∨ ∃ n, parseCIDR s.cidr = some n ∧
        parent.contains n.ip = true,
      (∃ ns bi' li' res', reservedOf s = .ok ns ∧
        classify parent (i0 + 1) rest = .ok (bi', li', res') ∧
        (s.cidr = "" ∨ ∃ n, parseCIDR s.cidr = some n ∧
          parent.contains n.ip = true) ∧
        ((s.ty = SubnetTypeDualStack ∨ s.ty = SubnetTypePublic ∨
            s.ty = SubnetTypePrivate) ∧ r = (i0 :: bi', li', ns ++ res') ∨
          s.ty = SubnetTypeUtility ∧
            ¬(s.ty = SubnetTypeDualStack ∨ s.ty = SubnetTypePublic ∨
              s.ty = SubnetTypePrivate) ∧ r = (bi', i0 :: li', ns ++ res'))) := by
    intro hh hpart
    by_cases hrole : s.ty = SubnetTypeDualStack ∨ s.ty = SubnetTypePublic ∨
        s.ty = SubnetTypePrivate
    · rw [if_pos hrole] at hh
      split at hh
      · exact Except.noConfusion hh
      · rename_i ns hns
        split at hh
        · exact Except.noConfusion hh
        · rename_i big2 li2 res2 hcl
          injection hh with hh
          exact ⟨ns, big2, li2, res2, hns, hcl, hpart, Or.inl ⟨hrole, hh.symm⟩⟩
    · rw [if_neg hrole] at hh
      by_cases hutil : s.ty = SubnetTypeUtility
      · rw [if_pos hutil] at hh
        split at hh
        · exact Except.noConfusion hh
        · rename_i ns hns
          split at hh
          · exact Except.noConfusion hh
          · rename_i big2 li2 res2 hcl
            injection hh with hh
            exact ⟨ns, big2, li2, res2, hns, hcl, hpart,
              Or.inr ⟨hutil, hrole, hh.symm⟩⟩
      · rw [if_neg hutil] at hh
        exact Except.noConfusion hh
  by_cases hc : s.cidr = ""
  · rw [if_pos hc] at h
    dsimp only at h
    exact Or.inr (main h (Or.inl hc))
  · rw [if_neg hc] at h
    split at h
    · exact Except.noConfusion h
    · rename_i hp
      split at hp
      · exact Except.noConfusion hp
      · rename_i n hn
        injection hp with hp
        exact Or.inl ⟨n, hc, hn, hp, h⟩
    · rename_i hp
      split at hp
      · exact Except.noConfusion hp
      · rename_i n hn
        injection hp with hp
        exact Or.inr (main h (Or.inr ⟨n, hn, hp⟩))


theorem classify_shape {parent : IPNet} :
    ∀ {l : List ClusterSubnetSpec} {i0 : Nat} {bi li : List Nat}
    {res : List IPNet}, classify parent i0 l = .ok (bi, li, res) →
    (∀ x, x ∈ bi ∨ x ∈ li → i0 ≤ x ∧ x < i0 + l.length) ∧
    bi.Nodup ∧ li.Nodup ∧ ∀ x ∈ bi, x ∉ li := by
  intro l
  induction l with
  | nil =>
    intro i0 bi li res h
    rw [classify] at h
    injection h with h
    rw [Prod.mk.injEq, Prod.mk.injEq] at h
    obtain ⟨h1, h2, h3⟩ := h
    subst h1
    subst h2
    refine ⟨fun x hx => ?_, List.nodup_nil, List.nodup_nil,
      fun x hx => absurd hx (List.not_mem_nil x)⟩
    rcases hx with hx | hx <;> exact absurd hx (List.not_mem_nil x)
  | cons s rest ih =>
    intro i0 bi li res h
    rcases classify_cons_inv h with ⟨n, hc, hp, hct, hcl⟩ |
        ⟨ns, bi2, li2, res2, hns, hcl, hpart, hcase⟩
    · obtain ⟨hbnd, hnd1, hnd2, hdisj⟩ := ih hcl
      refine ⟨fun x hx => ?_, hnd1, hnd2, hdisj⟩
      have := hbnd x hx
      simp only [List.length_cons]
      omega
    · obtain ⟨hbnd, hnd1, hnd2, hdisj⟩ := ih hcl
      rcases hcase with ⟨hrole, hr⟩ | ⟨hutil, hnrole, hr⟩ <;>
        (injection hr with e1 e23; injection e23 with e2 e3)
      · subst e1; subst e2
        refine ⟨fun x hx => ?_, ?_, hnd2, ?_⟩
        · simp only [List.length_cons]
          rcases hx with hx | hx
          · rcases List.mem_cons.mp hx with hx | hx
            · omega
            · have := hbnd x (Or.inl hx)
              omega
          · have := hbnd x (Or.inr hx)
            omega
        · rw [List.nodup_cons]
          refine ⟨fun hm => ?_, hnd1⟩
          have := hbnd i0 (Or.inl hm)
          omega
        · intro x hx
          rcases List.mem_cons.mp hx with hx | hx
          · subst hx
            intro hm
            have := hbnd x (Or.inr hm)
            omega
          · exact hdisj x hx
      · subst e1; subst e2
        refine ⟨fun x hx => ?_, hnd1, ?_, ?_⟩
        · simp only [List.length_cons]
          rcases hx with hx | hx
          · have := hbnd x (Or.inl hx)
            omega
          · rcases List.mem_cons.mp hx with hx | hx
            · omega
            · have := hbnd x (Or.inr hx)
              omega
        · rw [List.nodup_cons]
          refine ⟨fun hm => ?_, hnd2⟩
          have := hbnd i0 (Or.inr hm)
          omega
        · intro x hx hm
          rcases List.mem_cons.mp hm with hm | hm
          · subst hm
            have := hbnd x (Or.inl hx)
            omega
          · exact hdisj x hx hm

theorem classify_reserved {parent : IPNet} :
    ∀ {l : List ClusterSubnetSpec} {i0 : Nat} {bi li : List Nat}
    {res : List IPNet}, classify parent i0 l = .ok (bi, li, res) →
    res = reservedSpec parent l := by
  intro l
  induction l with
  | nil =>
    intro i0 bi li res h
    rw [classify] at h
    injection h with h
    injection h with h1 h2
    injection h2 with h2 h3
    exact h3.symm
  | cons s rest ih =>
    intro i0 bi li res h
    rcases classify_cons_inv h with ⟨n, hc, hp, hct, hcl⟩ |
        ⟨ns, bi2, li2, res2, hns, hcl, hpart, hcase⟩
    · rw [ih hcl]
      unfold reservedSpec
      rw [List.filterMap_cons]
      rw [if_neg hc, hp]
      dsimp only
      rw [hct, if_neg Bool.false_ne_true]
    · have hres : res = ns ++ res2 := by
        rcases hcase with ⟨hrole, hr⟩ | ⟨hutil, hnrole, hr⟩ <;>
          · rw [Prod.mk.injEq, Prod.mk.injEq] at hr
            exact hr.2.2
      subst hres
      rw [ih hcl]
      unfold reservedSpec
      rw [List.filterMap_cons]
      rcases reservedOf_inv hns with ⟨hc, hns0⟩ | ⟨hc, n, hp, hns1⟩
      · subst hns0
        rw [if_pos hc]
        rfl
      · subst hns1
        rcases hpart with hpart | ⟨n2, hp2, hct2⟩
        · exact absurd hpart hc
        · rw [hp2] at hp
          injection hp with hp
          subst hp
          rw [if_neg hc, hp2]
          dsimp only
          rw [hct2, if_pos rfl]
          rfl

theorem classify_big_ty {parent : IPNet} :
    ∀ {l : List ClusterSubnetSpec} {i0 : Nat} {bi li : List Nat}
    {res : List IPNet}, classify parent i0 l = .ok (bi, li, res) →
    ∀ x ∈ bi, (l.getD (x - i0) default).ty = SubnetTypeDualStack ∨
      (l.getD (x - i0) default).ty = SubnetTypePublic ∨
      (l.getD (x - i0) default).ty = SubnetTypePrivate := by
  intro l
  induction l with
  | nil =>
    intro i0 bi li res h
    rw [classify] at h
    injection h with h
    injection h with h1 h2
    subst h1
    exact fun x hx => absurd hx (List.not_mem_nil x)
  | cons s rest ih =>
    intro i0 bi li res h x hx
    rcases classify_cons_inv h with ⟨n, hc, hp, hct, hcl⟩ |
        ⟨ns, bi2, li2, res2, hns, hcl, hpart, hcase⟩
    · have hbnd := (classify_shape hcl).1 x (Or.inl hx)
      have hx2 := ih hcl x hx
      rwa [show x - i0 = (x - (i0 + 1)) + 1 by omega, List.getD_cons_succ]
    · rcases hcase with ⟨hrole, hr⟩ | ⟨hutil, hnrole, hr⟩ <;>
        (injection hr with e1 e23; injection e23 with e2 e3)
      · subst e1
        rcases List.mem_cons.mp hx with hx | hx
        · subst hx
          rw [Nat.sub_self, List.getD_cons_zero]
          exact hrole
        · have hbnd := (classify_shape hcl).1 x (Or.inl hx)
          have hx2 := ih hcl x hx
          rwa [show x - i0 = (x - (i0 + 1)) + 1 by omega, List.getD_cons_succ]
      · subst e1
        have hbnd := (classify_shape hcl).1 x (Or.inl hx)
        have hx2 := ih hcl x hx
        rwa [show x - i0 = (x - (i0 + 1)) + 1 by omega, List.getD_cons_succ]

theorem classify_little_ty {parent : IPNet} :
    ∀ {l : List ClusterSubnetSpec} {i0 : Nat} {bi li : List Nat}
    {res : List IPNet}, classify parent i0 l = .ok (bi, li, res) →
    ∀ x ∈ li, (l.getD (x - i0) default).ty = SubnetTypeUtility := by
  intro l
  induction l with
  | nil =>
    intro i0 bi li res h
    rw [classify] at h
    injection h with h
    injection h with h1 h2
    injection h2 with h2 h3
    subst h2
    exact fun x hx => absurd hx (List.not_mem_nil x)
  | cons s rest ih =>
    intro i0 bi li res h x hx
    rcases classify_cons_inv h with ⟨n, hc, hp, hct, hcl⟩ |
        ⟨ns, bi2, li2, res2, hns, hcl, hpart, hcase⟩
    · have hbnd := (classify_shape hcl).1 x (Or.inr hx)
      have hx2 := ih hcl x hx
      rwa [show x - i0 = (x - (i0 + 1)) + 1 by omega, List.getD_cons_succ]
    · rcases hcase with ⟨hrole, hr⟩ | ⟨hutil, hnrole, hr⟩ <;>
        (injection hr with e1 e23; injection e23 with e2 e3)
      · subst e2
        have hbnd := (classify_shape hcl).1 x (Or.inr hx)
        have hx2 := ih hcl x hx
        rwa [show x - i0 = (x - (i0 + 1)) + 1 by omega, List.getD_cons_succ]
      · subst e2
        rcases List.mem_cons.mp hx with hx | hx
        · subst hx
          rw [Nat.sub_self, List.getD_cons_zero]
          exact hutil
        · have hbnd := (classify_shape hcl).1 x (Or.inr hx)
          have hx2 := ih hcl x hx
          rwa [show x - i0 = (x - (i0 + 1)) + 1 by omega, List.getD_cons_succ]


theorem classify_mem_participates {parent : IPNet} :
    ∀ {l : List ClusterSubnetSpec} {i0 : Nat} {bi li : List Nat}
    {res : List IPNet}, classify parent i0 l = .ok (bi, li, res) →
    ∀ x, x ∈ bi ∨ x ∈ li →
    (l.getD (x - i0) default).cidr = "" ∨
      ∃ n, parseCIDR (l.getD (x - i0) default).cidr = some n ∧
        parent.contains n.ip = true := by
  intro l
  induction l with
  | nil =>
    intro i0 bi li res h
    rw [classify] at h
    injection h with h
    rw [Prod.mk.injEq, Prod.mk.injEq] at h
    obtain ⟨h1, h2, h3⟩ := h
    subst h1
    subst h2
    intro x hx
    rcases hx with hx | hx <;> exact absurd hx (List.not_mem_nil x)
  | cons s rest ih =>
    intro i0 bi li res h x hx
    rcases classify_cons_inv h with ⟨n, hc, hp, hct, hcl⟩ |
        ⟨ns, bi2, li2, res2, hns, hcl, hpart, hcase⟩
    · have hbnd := (classify_shape hcl).1 x hx
      have hx2 := ih hcl x hx
      rwa [show x - i0 = (x - (i0 + 1)) + 1 by omega, List.getD_cons_succ]
    · have hxsplit : x = i0 ∨ (x ∈ bi2 ∨ x ∈ li2) := by
        rcases hcase with ⟨hrole, hr⟩ | ⟨hutil, hnrole, hr⟩ <;>
          rw [Prod.mk.injEq, Prod.mk.injEq] at hr
        · rcases hx with hx | hx
          · rw [hr.1] at hx
            rcases List.mem_cons.mp hx with hx | hx
            · exact Or.inl hx
            · exact Or.inr (Or.inl hx)
          · rw [hr.2.1] at hx
            exact Or.inr (Or.inr hx)
        · rcases hx with hx | hx
          · rw [hr.1] at hx
            exact Or.inr (Or.inl hx)
          · rw [hr.2.1] at hx
            rcases List.mem_cons.mp hx with hx | hx
            · exact Or.inl hx
            · exact Or.inr (Or.inr hx)
      rcases hxsplit with hxi | hx2
      · subst hxi
        rw [Nat.sub_self, List.getD_cons_zero]
        exact hpart
      · have hbnd := (classify_shape hcl).1 x hx2
        have hx3 := ih hcl x hx2
        rwa [show x - i0 = (x - (i0 + 1)) + 1 by omega, List.getD_cons_succ]

theorem classify_participant_mem {parent : IPNet} :
    ∀ {l : List ClusterSubnetSpec} {i0 : Nat} {bi li : List Nat}
    {res : List IPNet} {k : Nat} {n : IPNet},
    classify parent i0 l = .ok (bi, li, res) → k < l.length →
    parseCIDR (l.getD k default).cidr = some n →
    parent.contains n.ip = true →
    (i0 + k) ∈ bi ∨ (i0 + k) ∈ li := by
  intro l
  induction l with
  | nil =>
    intro i0 bi li res k n h hk
    exact absurd hk (by simp)
  | cons s rest ih =>
    intro i0 bi li res k n h hk hp hct
    rcases classify_cons_inv h with ⟨n2, hc, hp2, hct2, hcl⟩ |
        ⟨ns, bi2, li2, res2, hns, hcl, hpart, hcase⟩
    · cases k with
      | zero =>
        rw [List.getD_cons_zero] at hp
        rw [hp] at hp2
        injection hp2 with hp2
        subst hp2
        rw [hct] at hct2
        cases hct2
      | succ k2 =>
        rw [List.getD_cons_succ] at hp
        have := ih hcl (by simpa using Nat.lt_of_succ_lt_succ hk) hp hct
        rwa [show i0 + 1 + k2 = i0 + (k2 + 1) by omega] at this
    · cases k with
      | zero =>
        rcases hcase with ⟨hrole, hr⟩ | ⟨hutil, hnrole, hr⟩ <;>
          rw [Prod.mk.injEq, Prod.mk.injEq] at hr
        · left
          rw [hr.1, Nat.add_zero]
          exact List.mem_cons_self i0 bi2
        · right
          rw [hr.2.1, Nat.add_zero]
          exact List.mem_cons_self i0 li2
      | succ k2 =>
        rw [List.getD_cons_succ] at hp
        have hm := ih hcl (by simpa using Nat.lt_of_succ_lt_succ hk) hp hct
        rw [show i0 + 1 + k2 = i0 + (k2 + 1) by omega] at hm
        rcases hcase with ⟨hrole, hr⟩ | ⟨hutil, hnrole, hr⟩ <;>
          rw [Prod.mk.injEq, Prod.mk.injEq] at hr
        · rcases hm with hm | hm
          · left
            rw [hr.1]
            exact List.mem_cons_of_mem i0 hm
          · right
            rw [hr.2.1]
            exact hm
        · rcases hm with hm | hm
          · left
            rw [hr.1]
            exact hm
          · right
            rw [hr.2.1]
            exact List.mem_cons_of_mem i0 hm

theorem classify_ok_roles {parent : IPNet} :
    ∀ {l : List ClusterSubnetSpec} {i0 : Nat}
    {r : List Nat × List Nat × List IPNet},
    classify parent i0 l = .ok r → ∀ s ∈ l,
    (s.cidr = "" ∨ ∃ n, parseCIDR s.cidr = some n ∧
      parent.contains n.ip = true) →
    s.ty = SubnetTypeDualStack ∨ s.ty = SubnetTypePublic ∨
      s.ty = SubnetTypePrivate ∨ s.ty = SubnetTypeUtility := by
  intro l
  induction l with
  | nil =>
    intro i0 r h s hs
    exact absurd hs (List.not_mem_nil s)
  | cons s0 rest ih =>
    intro i0 r h s hs hpart
    rcases classify_cons_inv h with ⟨n, hc, hp, hct, hcl⟩ |
        ⟨ns, bi2, li2, res2, hns, hcl, hpart2, hcase⟩
    · rcases List.mem_cons.mp hs with hs | hs
      · subst hs
        rcases hpart with hpart | ⟨n2, hp2, hct2⟩
        · exact absurd hpart hc
        · rw [hp2] at hp
          injection hp with hp
          subst hp
          rw [hct2] at hct
          cases hct
      · exact ih hcl s hs hpart
    · rcases List.mem_cons.mp hs with hs | hs
      · subst hs
        rcases hcase with ⟨hrole, hr⟩ | ⟨hutil, hnrole, hr⟩
        · rcases hrole with h1 | h1 | h1
          · exact Or.inl h1
          · exact Or.inr (Or.inl h1)
          · exact Or.inr (Or.inr (Or.inl h1))
        · exact Or.inr (Or.inr (Or.inr hutil))
      · exact ih hcl s hs hpart

theorem reservedSpec_mem {parent : IPNet} {l : List ClusterSubnetSpec}
    {k : Nat} {n : IPNet} (hk : k < l.length)
    (hc : (l.getD k default).cidr ≠ "")
    (hp : parseCIDR (l.getD k default).cidr = some n)
    (hct : parent.contains n.ip = true) :
    n ∈ reservedSpec parent l := by
  unfold reservedSpec
  rw [List.mem_filterMap]
  refine ⟨l.getD k default, ?_, ?_⟩
  · rw [List.getD_eq_getElem l default hk]
    exact List.getElem_mem hk
  · rw [if_neg hc, hp]
    dsimp only
    rw [hct, if_pos rfl]


/-! ### Further supporting lemmas -/

theorem parseCIDR_empty : parseCIDR "" = none := rfl

theorem render_inj {a b : IPNet} (ha : a.Canonical) (hb : b.Canonical)
    (h : a.render = b.render) : a = b := by
  have h1 := parseCIDR_render ha
  have h2 := parseCIDR_render hb
  rw [h] at h1
  rw [h1] at h2
  injection h2

theorem cidrAt_out_of_range {c : Cluster} {j : Nat}
    (h : c.subnets.length ≤ j) : cidrAt c j = "" := by
  unfold cidrAt subnetAt
  rw [List.getD_eq_default _ _ h]
  rfl

theorem splitParent_ok {parent : IPNet} {cnt : Nat} {blocks : List IPNet}
    (h : splitParent parent cnt = .ok blocks) :
    ∃ k, k ≤ 3 ∧ splitIntoPow k parent = .ok blocks := by
  unfold splitParent at h
  split at h
  · exact ⟨0, by omega, h⟩
  · split at h
    · exact ⟨1, by omega, h⟩
    · split at h
      · exact ⟨2, by omega, h⟩
      · exact ⟨3, by omega, h⟩

theorem ty_of_nonCIDRFields {s t : ClusterSubnetSpec}
    (h : nonCIDRFields s = nonCIDRFields t) : s.ty = t.ty := by
  unfold nonCIDRFields at h
  rw [Prod.mk.injEq, Prod.mk.injEq, Prod.mk.injEq, Prod.mk.injEq] at h
  exact h.2.2.2.1

theorem ipv6_of_nonCIDRFields {s t : ClusterSubnetSpec}
    (h : nonCIDRFields s = nonCIDRFields t) : s.ipv6CIDR = t.ipv6CIDR := by
  unfold nonCIDRFields at h
  rw [Prod.mk.injEq, Prod.mk.injEq, Prod.mk.injEq, Prod.mk.injEq] at h
  exact h.2.2.1

theorem name_of_nonCIDRFields {s t : ClusterSubnetSpec}
    (h : nonCIDRFields s = nonCIDRFields t) : s.name = t.name := by
  unfold nonCIDRFields at h
  rw [Prod.mk.injEq, Prod.mk.injEq, Prod.mk.injEq, Prod.mk.injEq] at h
  exact h.1

theorem allSubnetsHaveCIDRs_iff (c : Cluster) :
    allSubnetsHaveCIDRs c = true ↔ ∀ s ∈ c.subnets, s.cidr ≠ "" := by
  unfold allSubnetsHaveCIDRs
  rw [List.all_eq_true]
  constructor
  · intro h s hs
    have := h s hs
    simpa using this
  · intro h s hs
    simpa using h s hs

theorem vpcResolve_frame {cloud : Cloud} {c c1 : Cluster}
    {e : Option RunError} (h : vpcResolve cloud c = (c1, e)) :
    FrameOK c c1 := by
  unfold vpcResolve at h
  split at h
  · injection h with h1 h2
    exact h1 ▸ frameOK_refl c
  · split at h
    · injection h with h1 h2
      exact h1 ▸ frameOK_refl c
    · injection h with h1 h2
      exact h1 ▸ frameOK_refl c
    · exact resolveLoop_frame h

theorem resolveLoop_no_insufficient {infos : List SubnetInfo} {vpcID : String} :
    ∀ {l : List Nat} {st st' : Cluster} {e : RunError},
    resolveLoop infos vpcID st l = (st', some e) → ∀ nm,
    e ≠ .insufficientBigCIDRs nm ∧ e ≠ .insufficientLittleCIDRs nm := by
  intro l
  induction l with
  | nil =>
    intro st st' e h nm
    rw [resolveLoop] at h
    injection h with h1 h2
    cases h2
  | cons i rest ih =>
    intro st st' e h nm
    rw [resolveLoop] at h
    dsimp only at h
    split at h
    · exact ih h nm
    · split at h
      · injection h with h1 h2
        injection h2 with h2
        subst h2
        exact ⟨fun hx => RunError.noConfusion hx, fun hx => RunError.noConfusion hx⟩
      · split at h
        · split at h
          · injection h with h1 h2
            injection h2 with h2
            subst h2
            exact ⟨fun hx => RunError.noConfusion hx, fun hx => RunError.noConfusion hx⟩
          · split at h
            · injection h with h1 h2
              injection h2 with h2
              subst h2
              exact ⟨fun hx => RunError.noConfusion hx, fun hx => RunError.noConfusion hx⟩
            · exact ih h nm
        · split at h
          · injection h with h1 h2
            injection h2 with h2
            subst h2
            exact ⟨fun hx => RunError.noConfusion hx, fun hx => RunError.noConfusion hx⟩
          · split at h
            · injection h with h1 h2
              injection h2 with h2
              subst h2
              exact ⟨fun hx => RunError.noConfusion hx, fun hx => RunError.noConfusion hx⟩
            · exact ih h nm

theorem vpcResolve_no_insufficient {cloud : Cloud} {c c1 : Cluster}
    {e : RunError} (h : vpcResolve cloud c = (c1, some e)) : ∀ nm,
    e ≠ .insufficientBigCIDRs nm ∧ e ≠ .insufficientLittleCIDRs nm := by
  unfold vpcResolve at h
  split at h
  · injection h with h1 h2
    cases h2
  · split at h
    · injection h with h1 h2
      injection h2 with h2
      subst h2
      exact fun nm => ⟨fun hx => RunError.noConfusion hx,
        fun hx => RunError.noConfusion hx⟩
    · injection h with h1 h2
      injection h2 with h2
      subst h2
      exact fun nm => ⟨fun hx => RunError.noConfusion hx,
        fun hx => RunError.noConfusion hx⟩
    · exact resolveLoop_no_insufficient h

theorem assignSubnets_skip_ipv6private :
    ∀ {l : List Nat} {st st' : Cluster} {pool pool' : List IPNet}
    {e : Option RunError} {j : Nat},
    assignSubnets true st pool l = (st', pool', e) →
    (subnetAt st j).ty = SubnetTypePrivate → (subnetAt st j).ipv6CIDR ≠ "" →
    cidrAt st' j = cidrAt st j := by
  intro l
  induction l with
  | nil =>
    intro st st' pool pool' e j h hty hip
    rw [assignSubnets.eq_def] at h
    dsimp only at h
    injection h with h1 h2
    rw [← h1]
  | cons i rest ih =>
    intro st st' pool pool' e j h hty hip
    rw [assignSubnets.eq_def] at h
    dsimp only at h
    split at h
    · exact ih h hty hip
    · split at h
      · exact ih h hty hip
      · rename_i hne hskip
        split at h
        · injection h with h1 h2
          rw [← h1]
        · rename_i b pr
          by_cases hij : i = j
          · subst hij
            exact absurd ⟨rfl, hip, hty⟩ hskip
          · have hfr := nonCIDRFields_setCIDR st i b.render j
            have hty2 : (subnetAt (setCIDR st i b.render) j).ty =
                SubnetTypePrivate := (ty_of_nonCIDRFields hfr).trans hty
            have hip2 : (subnetAt (setCIDR st i b.render) j).ipv6CIDR ≠ "" := by
              rw [ipv6_of_nonCIDRFields hfr]
              exact hip
            rw [ih h hty2 hip2]
            unfold cidrAt
            rw [subnetAt_setCIDR_ne st b.render hij]


/-- Soundness of the two assignment phases: every block handed out lies
within the parent, and distinct assigned subnets receive disjoint
blocks that also avoid the reserved set. -/
theorem assignPhases_no_overlap {c st1 c' : Cluster} {parent : IPNet}
    {bigS littleS : List Nat} {bigPool littlePool p1 p2 : List IPNet}
    {res : List IPNet}
    (hndb : bigS.Nodup) (hndl : littleS.Nodup)
    (hLmem : ∀ x ∈ littleS, x ∉ bigS)
    (hbigf : ∀ b ∈ bigPool, b.within parent = true ∧ b.Canonical ∧
      ∀ r ∈ res, overlap r b = false)
    (hlitf : ∀ b ∈ littlePool, b.within parent = true ∧ b.Canonical ∧
      ∀ r ∈ res, overlap r b = false)
    (hbigpw : bigPool.Pairwise fun a b => overlap a b = false)
    (hlitpw : littlePool.Pairwise fun a b => overlap a b = false)
    (hmixpw : ∀ bl ∈ littlePool, ∀ bb ∈ bigPool, overlap bl bb = false)
    (hresv : ∀ j b', cidrAt c j ≠ "" → parseCIDR (cidrAt c j) = some b' →
      parent.contains b'.ip = true → b' ∈ res)
    (hlitrun : assignSubnets false c littlePool littleS = (st1, p1, none))
    (hbigrun : assignSubnets true st1 bigPool bigS = (c', p2, none)) :
    ∀ i, cidrAt c i = "" → cidrAt c' i ≠ "" →
    ∃ b : IPNet, cidrAt c' i = b.render ∧ b.within parent = true ∧
      ∀ j, j ≠ i → ∀ b', parseCIDR (cidrAt c' j) = some b' →
        parent.contains b'.ip = true → overlap b b' = false := by
  have hphase : ∀ x, cidrAt c' x ≠ cidrAt c x →
      (cidrAt st1 x ≠ cidrAt c x ∧ x ∈ littleS ∧
        cidrAt c' x = cidrAt st1 x ∧ ∃ b ∈ littlePool, cidrAt c' x = b.render) ∨
      (cidrAt st1 x = cidrAt c x ∧ cidrAt c' x ≠ cidrAt st1 x ∧
        ∃ b ∈ bigPool, cidrAt c' x = b.render) := by
    intro x hx
    by_cases h1 : cidrAt st1 x = cidrAt c x
    · right
      have h2 : cidrAt c' x ≠ cidrAt st1 x := by rw [h1]; exact hx
      obtain ⟨hm, he, b, hb, hr⟩ := assignSubnets_changed hbigrun h2
      exact ⟨h1, h2, b, hb, hr⟩
    · left
      obtain ⟨hm, he, b, hb, hr⟩ := assignSubnets_changed hlitrun h1
      have hnb : x ∉ bigS := hLmem x hm
      have hun : cidrAt c' x = cidrAt st1 x := assignSubnets_untouched hbigrun hnb
      exact ⟨h1, hm, hun, b, hb, hun.trans hr⟩
  intro i hci hci'
  have hchi : cidrAt c' i ≠ cidrAt c i := by rw [hci]; exact hci'
  have hmain : ∃ b : IPNet, cidrAt c' i = b.render ∧ b.within parent = true ∧
      b.Canonical ∧ (∀ r ∈ res, overlap r b = false) ∧
      ((cidrAt st1 i ≠ cidrAt c i ∧ i ∈ littleS ∧ b ∈ littlePool) ∨
        (cidrAt st1 i = cidrAt c i ∧ cidrAt c' i ≠ cidrAt st1 i ∧ b ∈ bigPool)) := by
    rcases hphase i hchi with ⟨h1, hmem, heq, b, hb, hr⟩ | ⟨h1, h2, b, hb, hr⟩
    · obtain ⟨hw, hcan, hnores⟩ := hlitf b hb
      exact ⟨b, hr, hw, hcan, hnores, Or.inl ⟨h1, hmem, hb⟩⟩
    · obtain ⟨hw, hcan, hnores⟩ := hbigf b hb
      exact ⟨b, hr, hw, hcan, hnores, Or.inr ⟨h1, h2, hb⟩⟩
  obtain ⟨b, hr, hw, hcan, hnores, hcase⟩ := hmain
  refine ⟨b, hr, hw, ?_⟩
  intro j hj b' hpj hcontains
  by_cases hchj : cidrAt c' j = cidrAt c j
  · have hcj : cidrAt c j ≠ "" := by
      intro h0
      rw [hchj, h0, parseCIDR_empty] at hpj
      cases hpj
    have hb' : b' ∈ res := hresv j b' hcj (by rw [← hchj]; exact hpj) hcontains
    rw [overlap_comm]
    exact hnores b' hb'
  · rcases hphase j hchj with ⟨g1, gmem, geq, b2, hb2, hr2⟩ |
        ⟨g1, g2, b2, hb2, hr2⟩
    · -- j was assigned by the little loop
      have hcan2 := (hlitf b2 hb2).2.1
      rw [hr2, parseCIDR_render hcan2] at hpj
      injection hpj with hpj
      rw [← hpj]
      rcases hcase with ⟨h1, hmem, hb⟩ | ⟨h1, h2, hb⟩
      · -- both little: blocks come from distinct positions of the pool
        obtain ⟨bp, bp', hbp, hbp', hrp, hrp2, hov⟩ :=
          assignSubnets_pairwise hlitrun hndl hlitpw i j (fun he => hj he.symm)
            h1 g1
        have heqi : cidrAt c' i = cidrAt st1 i :=
          assignSubnets_untouched hbigrun (hLmem i hmem)
        have hbi : b = bp := render_inj hcan (hlitf bp hbp).2.1
          (by rw [← hr, heqi, hrp])
        have hbj : b2 = bp' := render_inj hcan2 (hlitf bp' hbp').2.1
          (by rw [← hr2, geq, hrp2])
        rw [hbi, hbj]
        exact hov
      · -- i big, j little
        rw [overlap_comm]
        exact hmixpw b2 hb2 b hb
    · -- j was assigned by the big loop
      have hcan2 := (hbigf b2 hb2).2.1
      rw [hr2, parseCIDR_render hcan2] at hpj
      injection hpj with hpj
      rw [← hpj]
      rcases hcase with ⟨h1, hmem, hb⟩ | ⟨h1, h2, hb⟩
      · -- i little, j big
        exact hmixpw b hb b2 hb2
      · -- both big
        obtain ⟨bp, bp', hbp, hbp', hrp, hrp2, hov⟩ :=
          assignSubnets_pairwise hbigrun hndb hbigpw i j (fun he => hj he.symm)
            h2 g2
        have hbi : b = bp := render_inj hcan (hbigf bp hbp).2.1
          (by rw [← hr, hrp])
        have hbj : b2 = bp' := render_inj hcan2 (hbigf bp' hbp').2.1
          (by rw [← hr2, hrp2])
        rw [hbi, hbj]
        exact hov


/-- Soundness of `coreAssign` on success: every cidr it writes is the
rendering of a block inside the parent that overlaps neither the
pre-declared in-parent cidrs nor the other written blocks. -/
theorem coreAssign_no_overlap {c c' : Cluster} {parent : IPNet}
    (hparse : parseCIDR c.networkCIDR = some parent)
    (hrun : coreAssign c = (c', none)) :
    ∀ i, cidrAt c i = "" → cidrAt c' i ≠ "" →
    ∃ b : IPNet, cidrAt c' i = b.render ∧ b.within parent = true ∧
      ∀ j, j ≠ i → ∀ b', parseCIDR (cidrAt c' j) = some b' →
        parent.contains b'.ip = true → overlap b b' = false := by
  have hpc : parent.Canonical := parseCIDR_canonical hparse
  unfold coreAssign at hrun
  rw [hparse] at hrun
  dsimp only at hrun
  cases hcl : classify parent 0 c.subnets with
  | error e =>
    rw [hcl] at hrun
    dsimp only at hrun
    injection hrun with h1 h2
    cases h2
  | ok triple =>
  obtain ⟨bi, li, res⟩ := triple
  rw [hcl] at hrun
  dsimp only at hrun
  cases hsp : splitParent parent
      (cidrCountOf (sortByZone c bi) (sortByZone c li)) with
  | error e =>
    rw [hsp] at hrun
    dsimp only at hrun
    injection hrun with h1 h2
    cases h2
  | ok blocks =>
  rw [hsp] at hrun
  dsimp only at hrun
  cases hro : removeOverlapping res blocks with
  | nil =>
    rw [hro] at hrun
    dsimp only at hrun
    injection hrun with h1 h2
    cases h2
  | cons b0 brest =>
  rw [hro] at hrun
  dsimp only at hrun
  -- facts about the split blocks and the survivors
  obtain ⟨k, hk3, hsik⟩ := splitParent_ok hsp
  have hshape := classify_shape hcl
  have hndb : (sortByZone c bi).Nodup := sortByZone_nodup c hshape.2.1
  have hndl : (sortByZone c li).Nodup := sortByZone_nodup c hshape.2.2.1
  have hLmem : ∀ x ∈ sortByZone c li, x ∉ sortByZone c bi := by
    intro x hx hx2
    exact hshape.2.2.2 x ((sortByZone_mem c).mp hx2) ((sortByZone_mem c).mp hx)
  have hsv_mem : ∀ x ∈ b0 :: brest, x ∈ blocks := by
    intro x hx
    exact (removeOverlapping_sublist res blocks).subset (hro ▸ hx)
  have hsv_nores : ∀ x ∈ b0 :: brest, ∀ r ∈ res, overlap r x = false := by
    intro x hx
    exact removeOverlapping_no_overlap (hro ▸ hx)
  have hsv_pw : (b0 :: brest).Pairwise (fun a b => overlap a b = false) :=
    List.Pairwise.sublist (hro ▸ removeOverlapping_sublist res blocks)
      (splitIntoPow_pairwise hsik)
  have hsv_within : ∀ x ∈ b0 :: brest, x.within parent = true :=
    fun x hx => splitIntoPow_within hsik x (hsv_mem x hx)
  have hsv_canon : ∀ x ∈ b0 :: brest, x.Canonical :=
    fun x hx => splitIntoPow_canonical hpc hsik x (hsv_mem x hx)
  have hresv : ∀ j b', cidrAt c j ≠ "" → parseCIDR (cidrAt c j) = some b' →
      parent.contains b'.ip = true → b' ∈ res := by
    intro j b' hcj hpj hcont
    have hjlen : j < c.subnets.length := by
      by_contra hge
      exact hcj (cidrAt_out_of_range (by omega))
    rw [classify_reserved hcl]
    exact reservedSpec_mem hjlen hcj hpj hcont
  split at hrun
  · -- there are utility subnets: the first survivor is re-split
    cases hs8 : splitIntoPow 3 b0 with
    | error e =>
      rw [hs8] at hrun
      dsimp only at hrun
      injection hrun with h1 h2
      cases h2
    | ok littlePool =>
    rw [hs8] at hrun
    dsimp only at hrun
    cases hlit : assignSubnets false c littlePool (sortByZone c li) with
    | mk st1 rest1 =>
    obtain ⟨p1, e1⟩ := rest1
    rw [hlit] at hrun
    cases e1 with
    | some e =>
      dsimp only at hrun
      injection hrun with h1 h2
      cases h2
    | none =>
    dsimp only at hrun
    cases hbig : assignSubnets true st1 brest (sortByZone c bi) with
    | mk st2 rest2 =>
    obtain ⟨p2, e2⟩ := rest2
    rw [hbig] at hrun
    dsimp only at hrun
    injection hrun with h1 h2
    subst h1
    cases e2 with
    | some e => cases h2
    | none =>
    have hb0c : b0.Canonical := hsv_canon b0 (List.mem_cons_self b0 brest)
    have hb0w : b0.within parent = true :=
      hsv_within b0 (List.mem_cons_self b0 brest)
    have hb0nores : ∀ r ∈ res, overlap r b0 = false :=
      hsv_nores b0 (List.mem_cons_self b0 brest)
    have hlitf : ∀ b ∈ littlePool, b.within parent = true ∧ b.Canonical ∧
        ∀ r ∈ res, overlap r b = false := by
      intro b hb
      have hwb0 : b.within b0 = true := splitIntoPow_within hs8 b hb
      refine ⟨within_trans hwb0 hb0w, splitIntoPow_canonical hb0c hs8 b hb, ?_⟩
      intro r hr
      rw [overlap_comm]
      apply overlap_false_of_within hwb0
      rw [overlap_comm]
      exact hb0nores r hr
    have hbigf : ∀ b ∈ brest, b.within parent = true ∧ b.Canonical ∧
        ∀ r ∈ res, overlap r b = false := by
      intro b hb
      exact ⟨hsv_within b (List.mem_cons_of_mem b0 hb),
        hsv_canon b (List.mem_cons_of_mem b0 hb),
        hsv_nores b (List.mem_cons_of_mem b0 hb)⟩
    have hmixpw : ∀ bl ∈ littlePool, ∀ bb ∈ brest, overlap bl bb = false := by
      intro bl hbl bb hbb
      apply overlap_false_of_within (splitIntoPow_within hs8 bl hbl)
      exact List.rel_of_pairwise_cons hsv_pw hbb
    exact assignPhases_no_overlap hndb hndl hLmem hbigf hlitf
      (List.Pairwise.of_cons hsv_pw) (splitIntoPow_pairwise hs8) hmixpw hresv
      hlit hbig
  · -- no utility subnets: all survivors go to the big loop
    rename_i hlen
    have hlitS : sortByZone c li = [] := by
      rw [← List.length_eq_zero]
      omega
    cases hbig : assignSubnets true c (b0 :: brest) (sortByZone c bi) with
    | mk st2 rest2 =>
    obtain ⟨p2, e2⟩ := rest2
    rw [hbig] at hrun
    dsimp only at hrun
    injection hrun with h1 h2
    subst h1
    cases e2 with
    | some e => cases h2
    | none =>
    have hbigf : ∀ b ∈ b0 :: brest, b.within parent = true ∧ b.Canonical ∧
        ∀ r ∈ res, overlap r b = false :=
      fun b hb => ⟨hsv_within b hb, hsv_canon b hb, hsv_nores b hb⟩
    exact assignPhases_no_overlap
      hndb List.nodup_nil (fun x hx => absurd hx (List.not_mem_nil x))
      hbigf (fun b hb => absurd hb (List.not_mem_nil b)) hsv_pw
      List.Pairwise.nil (fun bl hbl => absurd hbl (List.not_mem_nil bl)) hresv
      (rfl : assignSubnets false c [] [] = (c, [], none)) hbig


theorem classify_no_insufficient {parent : IPNet} :
    ∀ (l : List ClusterSubnetSpec) (i0 : Nat) (e : RunError),
    classify parent i0 l = .error e → ∀ nm,
    e ≠ .insufficientBigCIDRs nm ∧ e ≠ .insufficientLittleCIDRs nm ∧
    e ≠ .noCIDRsAvailable := by
  intro l
  induction l with
  | nil =>
    intro i0 e h nm
    rw [classify] at h
    exact Except.noConfusion h
  | cons s rest ih =>
    intro i0 e h nm
    rw [classify] at h
    by_cases hc : s.cidr = ""
    · rw [if_pos hc] at h
      dsimp only at h
      exact roleStep h nm ih
    · rw [if_neg hc] at h
      split at h
      · rename_i e2 hp
        injection h with h
        subst h
        split at hp
        · injection hp with hp
          subst hp
          exact ⟨fun hx => RunError.noConfusion hx,
            fun hx => RunError.noConfusion hx,
            fun hx => RunError.noConfusion hx⟩
        · simp at hp
      · exact ih _ _ h nm
      · rename_i hp
        exact roleStep h nm ih
where
  roleStep {i0 : Nat} {s : ClusterSubnetSpec}
      {rest : List ClusterSubnetSpec} {e : RunError}
      (h : (if s.ty = SubnetTypeDualStack ∨ s.ty = SubnetTypePublic ∨
          s.ty = SubnetTypePrivate then
        match reservedOf s with
        | .error e => .error e
        | .ok ns =>
          match classify parent (i0 + 1) rest with
          | .error e => .error e
          | .ok (big, little, res) => .ok (i0 :: big, little, ns ++ res)
      else if s.ty = SubnetTypeUtility then
        match reservedOf s with
        | .error e => .error e
        | .ok ns =>
          match classify parent (i0 + 1) rest with
          | .error e => .error e
          | .ok (big, little, res) => .ok (big, i0 :: little, ns ++ res)
      else
        (.error (.unknownSubnetType s.name s.ty) :
          Except RunError (List Nat × List Nat × List IPNet))) = .error e)
      (nm : String)
      (ih : ∀ (i0 : Nat) (e : RunError),
        classify parent i0 rest = .error e → ∀ nm,
        e ≠ .insufficientBigCIDRs nm ∧ e ≠ .insufficientLittleCIDRs nm ∧
        e ≠ .noCIDRsAvailable) :
      e ≠ .insufficientBigCIDRs nm ∧ e ≠ .insufficientLittleCIDRs nm ∧
      e ≠ .noCIDRsAvailable := by
    have resStep : ∀ {e2 : RunError}, reservedOf s = .error e2 →
        e2 ≠ .insufficientBigCIDRs nm ∧ e2 ≠ .insufficientLittleCIDRs nm ∧
        e2 ≠ .noCIDRsAvailable := by
      intro e2 h2
      unfold reservedOf at h2
      split at h2
      · cases h2
      · split at h2
        · injection h2 with h2
          subst h2
          exact ⟨fun hx => RunError.noConfusion hx,
            fun hx => RunError.noConfusion hx,
            fun hx => RunError.noConfusion hx⟩
        · cases h2
    split at h
    · split at h
      · rename_i hns
        injection h with h
        subst h
        exact resStep hns
      · split at h
        · rename_i hcl
          injection h with h
          subst h
          exact ih _ _ hcl nm
        · cases h
    · split at h
      · split at h
        · rename_i hns
          injection h with h
          subst h
          exact resStep hns
        · split at h
          · rename_i hcl
            injection h with h
            subst h
            exact ih _ _ hcl nm
          · cases h
      · injection h with h
        subst h
        exact ⟨fun hx => RunError.noConfusion hx,
          fun hx => RunError.noConfusion hx,
          fun hx => RunError.noConfusion hx⟩


theorem splitIntoPow_error {k : Nat} {n : IPNet} {e : RunError}
    (h : splitIntoPow k n = .error e) : ∃ b j, e = .cannotSplit b j := by
  unfold splitIntoPow at h
  split at h
  · cases h
  · injection h with h
    exact ⟨n.bits, k, h.symm⟩

theorem splitParent_error {parent : IPNet} {cnt : Nat} {e : RunError}
    (h : splitParent parent cnt = .error e) : ∃ b j, e = .cannotSplit b j := by
  unfold splitParent at h
  split at h
  · exact splitIntoPow_error h
  · split at h
    · exact splitIntoPow_error h
    · split at h
      · exact splitIntoPow_error h
      · exact splitIntoPow_error h

theorem assignSubnets_frame_fst (isBig : Bool) (st : Cluster)
    (pool : List IPNet) (l : List Nat) :
    FrameOK st (assignSubnets isBig st pool l).1 :=
  assignSubnets_frame (rfl : assignSubnets isBig st pool l =
    ((assignSubnets isBig st pool l).1, (assignSubnets isBig st pool l).2.1,
      (assignSubnets isBig st pool l).2.2))

theorem assignSubnets_error_snd {isBig : Bool} {st : Cluster}
    {pool : List IPNet} {l : List Nat} {e : RunError}
    (h : (assignSubnets isBig st pool l).2.2 = some e) :
    ∃ i ∈ l, cidrAt (assignSubnets isBig st pool l).1 i = "" ∧
      e = (if isBig then
        RunError.insufficientBigCIDRs
          (subnetAt (assignSubnets isBig st pool l).1 i).name
      else RunError.insufficientLittleCIDRs
          (subnetAt (assignSubnets isBig st pool l).1 i).name) := by
  apply @assignSubnets_error isBig l st (assignSubnets isBig st pool l).1
    pool (assignSubnets isBig st pool l).2.1 e
  rw [← h]

theorem coreAssign_frame {c c' : Cluster} {e : Option RunError}
    (h : coreAssign c = (c', e)) : FrameOK c c' := by
  unfold coreAssign at h
  dsimp only at h
  split at h
  · injection h with h1 h2
    exact h1 ▸ frameOK_refl c
  · split at h
    · injection h with h1 h2
      exact h1 ▸ frameOK_refl c
    · split at h
      · injection h with h1 h2
        exact h1 ▸ frameOK_refl c
      · split at h
        · injection h with h1 h2
          exact h1 ▸ frameOK_refl c
        · split at h
          · -- utility subnets present
            split at h
            · injection h with h1 h2
              exact h1 ▸ frameOK_refl c
            · split at h
              · rename_i hlit
                injection h with h1 h2
                exact h1 ▸ assignSubnets_frame hlit
              · rename_i hlit
                injection h with h1 h2
                exact h1 ▸ frameOK_trans (assignSubnets_frame hlit)
                  (assignSubnets_frame_fst _ _ _ _)
          · injection h with h1 h2
            exact h1 ▸ assignSubnets_frame_fst _ _ _ _

theorem coreAssign_insufficient {c c' : Cluster} {e : RunError} {nm : String}
    (h : coreAssign c = (c', some e))
    (he : e = .insufficientBigCIDRs nm ∨ e = .insufficientLittleCIDRs nm) :
    ∃ i, i < c'.subnets.length ∧ (subnetAt c' i).name = nm ∧
      cidrAt c' i = "" := by
  unfold coreAssign at h
  dsimp only at h
  split at h
  · injection h with h1 h2
    injection h2 with h2
    subst h2
    rcases he with he | he <;> exact RunError.noConfusion he
  · rename_i parent hparse
    split at h
    · rename_i e2 hcl
      injection h with h1 h2
      injection h2 with h2
      subst h2
      rcases he with he | he
      · exact absurd he (classify_no_insufficient _ _ _ hcl nm).1
      · exact absurd he (classify_no_insufficient _ _ _ hcl nm).2.1
    · rename_i bi li res hcl
      split at h
      · rename_i e2 hsp
        injection h with h1 h2
        injection h2 with h2
        subst h2
        obtain ⟨b2, j2, hsplit⟩ := splitParent_error hsp
        subst hsplit
        rcases he with he | he <;> exact RunError.noConfusion he
      · rename_i blocks hsp
        split at h
        · injection h with h1 h2
          injection h2 with h2
          subst h2
          rcases he with he | he <;> exact RunError.noConfusion he
        · rename_i b0 brest hro
          have hbounds : ∀ x, x ∈ bi ∨ x ∈ li → x < c.subnets.length := by
            intro x hx
            have := (classify_shape hcl).1 x hx
            omega
          split at h
          · split at h
            · rename_i e2 hs8
              injection h with h1 h2
              injection h2 with h2
              subst h2
              obtain ⟨b2, j2, hsplit⟩ := splitIntoPow_error hs8
              subst hsplit
              rcases he with he | he <;> exact RunError.noConfusion he
            · rename_i littlePool hs8
              split at h
              · rename_i st1 p1 e2 hlit
                injection h with h1 h2
                injection h2 with h2
                subst h2
                obtain ⟨i, hi, hci, hname⟩ := assignSubnets_error hlit
                rw [if_neg (by intro hx; exact Bool.noConfusion hx)] at hname
                rw [h1] at hci hname
                have hfr : FrameOK c c' := h1 ▸ assignSubnets_frame hlit
                refine ⟨i, ?_, ?_, hci⟩
                · rw [hfr.2.2.1]
                  exact hbounds i (Or.inr ((sortByZone_mem c).mp hi))
                · rcases he with he | he <;> rw [hname] at he
                  · exact RunError.noConfusion he
                  · simp only [RunError.insufficientLittleCIDRs.injEq] at he
                    exact he
              · rename_i st1 p1 hlit
                injection h with h1 h2
                obtain ⟨i, hi, hci, hname⟩ := assignSubnets_error_snd h2
                rw [h1] at hci hname
                rw [if_pos rfl] at hname
                have hfr : FrameOK c c' := h1 ▸ frameOK_trans
                  (assignSubnets_frame hlit) (assignSubnets_frame_fst _ _ _ _)
                refine ⟨i, ?_, ?_, hci⟩
                · rw [hfr.2.2.1]
                  exact hbounds i (Or.inl ((sortByZone_mem c).mp hi))
                · rcases he with he | he <;> rw [hname] at he
                  · simp only [RunError.insufficientBigCIDRs.injEq] at he
                    exact he
                  · exact RunError.noConfusion he
          · injection h with h1 h2
            obtain ⟨i, hi, hci, hname⟩ := assignSubnets_error_snd h2
            rw [h1] at hci hname
            rw [if_pos rfl] at hname
            have hfr : FrameOK c c' := h1 ▸ assignSubnets_frame_fst _ _ _ _
            refine ⟨i, ?_, ?_, hci⟩
            · rw [hfr.2.2.1]
              exact hbounds i (Or.inl ((sortByZone_mem c).mp hi))
            · rcases he with he | he <;> rw [hname] at he
              · simp only [RunError.insufficientBigCIDRs.injEq] at he
                exact he
              · exact RunError.noConfusion he


theorem run_unfold_core {cloud : Cloud} {c c1 : Cluster}
    (h1 : allSubnetsHaveCIDRs c = false)
    (h2 : vpcResolve cloud c = (c1, none))
    (h3 : allSubnetsHaveCIDRs c1 = false) :
    assignCIDRsToSubnets cloud c = coreAssign c1 := by
  unfold assignCIDRsToSubnets
  rw [h1, h2]
  dsimp only
  rw [h3]
  rfl

theorem run_insufficient_inv {cloud : Cloud} {c c' : Cluster} {e : RunError}
    {nm : String} (h : assignCIDRsToSubnets cloud c = (c', some e))
    (he : e = .insufficientBigCIDRs nm ∨ e = .insufficientLittleCIDRs nm) :
    ∃ c1, vpcResolve cloud c = (c1, none) ∧ coreAssign c1 = (c', some e) ∧
      FrameOK c c1 := by
  unfold assignCIDRsToSubnets at h
  split at h
  · injection h with hx hy
    cases hy
  · split at h
    · rename_i c1 e2 hv
      injection h with hx hy
      injection hy with hy
      subst hy
      rcases he with he | he
      · exact absurd he (vpcResolve_no_insufficient hv nm).1
      · exact absurd he (vpcResolve_no_insufficient hv nm).2
    · rename_i c1 hv
      split at h
      · injection h with hx hy
        cases hy
      · exact ⟨c1, hv, h, vpcResolve_frame hv⟩

/-! ### Claim theorems -/

/-- Claim C2: with parent block 10.0.0.0/16, exactly two primary subnets
zoned "a" and "b" with empty cidr fields, no utility subnets and no
reserved ranges, the run succeeds and assigns 10.0.0.0/17 to the subnet
zoned "a" and 10.0.128.0/17 to the subnet zoned "b". -/
theorem C2_scenario_a :
    assignCIDRsToSubnets cloudNone clusterA = (clusterARes, none) ∧
    (subnetAt clusterA 0).zone = "a" ∧ cidrAt clusterA 0 = "" ∧
    (subnetAt clusterA 1).zone = "b" ∧ cidrAt clusterA 1 = "" ∧
    cidrAt clusterARes 0 = "10.0.0.0/17" ∧
    cidrAt clusterARes 1 = "10.0.128.0/17" := by
  decide

/-- Claim C3 as stated is false: on `clusterOutside` the run succeeds and
the cidr it assigns to subnet y overlaps the pre-declared cidr of
subnet x (which strictly contains the block assigned to y). -/
theorem C3_counterexample :
    assignCIDRsToSubnets cloudNone clusterOutside = (clusterOutsideRes, none) ∧
    cidrAt clusterOutside 1 = "" ∧
    cidrAt clusterOutsideRes 1 = "10.5.0.0/16" ∧
    cidrAt clusterOutsideRes 0 = "10.0.0.0/8" ∧
    parseCIDR "10.5.0.0/16" = some ⟨168099840, 16⟩ ∧
    parseCIDR "10.0.0.0/8" = some ⟨167772160, 8⟩ ∧
    parseCIDR clusterOutside.networkCIDR = some ⟨168099840, 16⟩ ∧
    IPNet.within ⟨168099840, 16⟩ ⟨168099840, 16⟩ = true ∧
    overlap ⟨168099840, 16⟩ ⟨167772160, 8⟩ = true := by
  decide

/-- Claim C3, amended: after any successful run, every subnet cidr the
core assigned is the rendering of a block that lies within the parent
block and does not overlap the cidr of any other subnet declaration
whose base address lies within the parent block. -/
theorem C3_assigned_within_no_overlap :
    ∀ (cloud : Cloud) (c c1 c' : Cluster) (parent : IPNet),
    allSubnetsHaveCIDRs c = false →
    vpcResolve cloud c = (c1, none) →
    allSubnetsHaveCIDRs c1 = false →
    parseCIDR c1.networkCIDR = some parent →
    coreAssign c1 = (c', none) →
    assignCIDRsToSubnets cloud c = (c', none) ∧
    ∀ i, cidrAt c1 i = "" → cidrAt c' i ≠ "" →
      ∃ b : IPNet, cidrAt c' i = b.render ∧ b.within parent = true ∧
        ∀ j, j ≠ i → ∀ b', parseCIDR (cidrAt c' j) = some b' →
          parent.contains b'.ip = true → overlap b b' = false := by
  intro cloud c c1 c' parent h1 h2 h3 h4 h5
  refine ⟨?_, coreAssign_no_overlap h4 h5⟩
  rw [run_unfold_core h1 h2 h3, h5]

/-- Witness for the amended claim C3 on the Scenario A input. -/
theorem C3_witness :
    ∃ b : IPNet, cidrAt clusterARes 0 = b.render ∧
      b.within ⟨167772160, 16⟩ = true ∧
      ∀ j, j ≠ 0 → ∀ b', parseCIDR (cidrAt clusterARes j) = some b' →
        IPNet.contains ⟨167772160, 16⟩ b'.ip = true → overlap b b' = false :=
  (C3_assigned_within_no_overlap cloudNone clusterA clusterA clusterARes
    ⟨167772160, 16⟩ (by decide) (by decide) (by decide) (by decide)
    (by decide)).2 0 (by decide) (by decide)

/-- Claim C7: if every declared subnet already has a non-empty cidr the
run is a successful no-op, and hence a second run on the result of a
fully successful (fully assigned) run is a successful no-op. -/
theorem C7_early_exit_idempotent :
    (∀ (cloud : Cloud) (c : Cluster), allSubnetsHaveCIDRs c = true →
      assignCIDRsToSubnets cloud c = (c, none)) ∧
    (∀ (cloud cloud2 : Cloud) (c c' : Cluster),
      assignCIDRsToSubnets cloud c = (c', none) →
      allSubnetsHaveCIDRs c' = true →
      assignCIDRsToSubnets cloud2 c' = (c', none)) := by
  have p1 : ∀ (cloud : Cloud) (c : Cluster), allSubnetsHaveCIDRs c = true →
      assignCIDRsToSubnets cloud c = (c, none) := by
    intro cloud c h
    unfold assignCIDRsToSubnets
    rw [h]
    rfl
  exact ⟨p1, fun cloud cloud2 c c' _ h => p1 cloud2 c' h⟩

/-- Witness for claim C7: the early exit on a fully assigned cluster, and
the no-op second run on the result of the Scenario A run. -/
theorem C7_witness :
    assignCIDRsToSubnets cloudNone clusterFull = (clusterFull, none) ∧
    assignCIDRsToSubnets cloudNone clusterARes = (clusterARes, none) :=
  ⟨C7_early_exit_idempotent.1 cloudNone clusterFull (by decide),
   C7_early_exit_idempotent.2 cloudNone cloudNone clusterA clusterARes
     (by decide) (by decide)⟩


/-- Claim C5: the overlap filter discards exactly the split blocks that
overlap some reserved block, keeps the survivors in order (it is the
order-preserving List.filter), and when no block survives the core fails
with NoCIDRsAvailable before mutating any subnet. -/
theorem C5_filter_and_noCIDRsAvailable :
    (∀ (reserved blocks : List IPNet),
      removeOverlapping reserved blocks =
        blocks.filter fun b => !overlapsAny reserved b) ∧
    (∀ (reserved : List IPNet) (b : IPNet),
      overlapsAny reserved b = true ↔ ∃ r ∈ reserved, overlap r b = true) ∧
    (∀ (c : Cluster) (parent : IPNet) (bi li : List Nat)
      (res blocks : List IPNet),
      parseCIDR c.networkCIDR = some parent →
      classify parent 0 c.subnets = .ok (bi, li, res) →
      splitParent parent
        (cidrCountOf (sortByZone c bi) (sortByZone c li)) = .ok blocks →
      removeOverlapping res blocks = [] →
      coreAssign c = (c, some .noCIDRsAvailable)) := by
  refine ⟨removeOverlapping_eq_filter, overlapsAny_iff, ?_⟩
  intro c parent bi li res blocks hparse hcl hsp hfil
  unfold coreAssign
  rw [hparse]
  dsimp only
  rw [hcl]
  dsimp only
  rw [hsp]
  dsimp only
  rw [hfil]

/-- Witness for claim C5: on `clusterAllReserved` both /17 blocks overlap
the reserved /16, so the filter leaves nothing and the core fails with
NoCIDRsAvailable returning the input cluster unchanged. -/
theorem C5_witness :
    coreAssign clusterAllReserved = (clusterAllReserved,
      some .noCIDRsAvailable) ∧
    removeOverlapping [⟨167772160, 16⟩] [⟨167772160, 17⟩, ⟨167804928, 17⟩] =
      List.filter (fun b => !overlapsAny [⟨167772160, 16⟩] b)
        [⟨167772160, 17⟩, ⟨167804928, 17⟩] :=
  ⟨C5_filter_and_noCIDRsAvailable.2.2 clusterAllReserved ⟨167772160, 16⟩
      [0, 1] [] [⟨167772160, 16⟩] [⟨167772160, 17⟩, ⟨167804928, 17⟩]
      (by decide) (by decide) (by decide) (by decide),
   C5_filter_and_noCIDRsAvailable.1 [⟨167772160, 16⟩]
     [⟨167772160, 17⟩, ⟨167804928, 17⟩]⟩

/-- Claim C6 as stated is false: this input has a subnet with role
"Gateway", outside the recognized set, yet the run returns success
(early exit) instead of aborting with UnknownSubnetRole. -/
theorem C6_counterexample :
    (subnetAt clusterBadRoleFull 0).ty = "Gateway" ∧
    "Gateway" ≠ SubnetTypeDualStack ∧ "Gateway" ≠ SubnetTypePublic ∧
    "Gateway" ≠ SubnetTypePrivate ∧ "Gateway" ≠ SubnetTypeUtility ∧
    assignCIDRsToSubnets cloudNone clusterBadRoleFull =
      (clusterBadRoleFull, none) := by
  decide

/-- Claim C6, amended: when classification runs and reports an
unrecognized role, the core aborts with that UnknownSubnetRole error and
no subnet is mutated; and classification can only succeed if every
subnet that participates (empty cidr, or cidr based inside the parent)
has a recognized role. -/
theorem C6_unknown_role :
    (∀ (c : Cluster) (parent : IPNet) (nm tv : String),
      parseCIDR c.networkCIDR = some parent →
      classify parent 0 c.subnets = .error (.unknownSubnetType nm tv) →
      coreAssign c = (c, some (.unknownSubnetType nm tv))) ∧
    (∀ (parent : IPNet) (i0 : Nat) (l : List ClusterSubnetSpec)
      (r : List Nat × List Nat × List IPNet),
      classify parent i0 l = .ok r → ∀ s ∈ l,
      (s.cidr = "" ∨ ∃ n, parseCIDR s.cidr = some n ∧
        parent.contains n.ip = true) →
      s.ty = SubnetTypeDualStack ∨ s.ty = SubnetTypePublic ∨
        s.ty = SubnetTypePrivate ∨ s.ty = SubnetTypeUtility) := by
  refine ⟨?_, fun parent i0 l r h => classify_ok_roles h⟩
  intro c parent nm tv hparse hcl
  unfold coreAssign
  rw [hparse]
  dsimp only
  rw [hcl]

/-- Witness for the amended claim C6. -/
theorem C6_witness :
    coreAssign clusterBadRole =
      (clusterBadRole, some (.unknownSubnetType "g" "Gateway")) :=
  C6_unknown_role.1 clusterBadRole ⟨167772160, 16⟩ "g" "Gateway"
    (by decide) (by decide)

/-- Claim C10: a declaration with a non-empty cidr is reserved exactly
per `reservedSpec` (base address inside the parent); it is classified
iff the parent contains the cidr's base address (so a base inside the
parent whose range extends beyond is still treated as inside); and a
subnet whose cidr is based outside the parent is skipped without any
role check, reservation or counting, whatever its role string. -/
theorem C10_reservation_by_base_address :
    (∀ (parent : IPNet) (l : List ClusterSubnetSpec) (i0 : Nat)
      (bi li : List Nat) (res : List IPNet),
      classify parent i0 l = .ok (bi, li, res) → res = reservedSpec parent l) ∧
    (∀ (parent : IPNet) (l : List ClusterSubnetSpec) (i0 : Nat)
      (bi li : List Nat) (res : List IPNet) (k : Nat) (n : IPNet),
      classify parent i0 l = .ok (bi, li, res) → k < l.length →
      (l.getD k default).cidr ≠ "" →
      parseCIDR (l.getD k default).cidr = some n →
      ((i0 + k ∈ bi ∨ i0 + k ∈ li) ↔ parent.contains n.ip = true)) ∧
    (∀ (parent : IPNet) (i0 : Nat) (s : ClusterSubnetSpec) (n : IPNet),
      s.cidr ≠ "" → parseCIDR s.cidr = some n →
      parent.contains n.ip = false →
      classify parent i0 [s] = .ok ([], [], [])) := by
  refine ⟨fun parent l i0 bi li res h => classify_reserved h, ?_, ?_⟩
  · intro parent l i0 bi li res k n h hk hc hp
    constructor
    · intro hmem
      rcases classify_mem_participates h (i0 + k) hmem with hc2 | ⟨n2, hp2, hct2⟩
      · rw [Nat.add_sub_cancel_left] at hc2
        exact absurd hc2 hc
      · rw [Nat.add_sub_cancel_left] at hp2
        rw [hp] at hp2
        injection hp2 with hp2
        rw [hp2]
        exact hct2
    · intro hct
      exact classify_participant_mem h hk hp hct
  · intro parent i0 s n hc hp hct
    rw [classify, if_neg hc, hp]
    dsimp only
    rw [hct]
    dsimp only
    rw [classify]

/-- Witness for claim C10: a /8 cidr whose base lies outside the /16
parent is skipped entirely, even with a nonsense role. -/
theorem C10_witness :
    classify ⟨168099840, 16⟩ 0 [⟨"x", "a", "10.0.0.0/8", "", "Whatever", ""⟩] =
      .ok ([], [], []) :=
  C10_reservation_by_base_address.2.2 ⟨168099840, 16⟩ 0
    ⟨"x", "a", "10.0.0.0/8", "", "Whatever", ""⟩ ⟨167772160, 8⟩
    (by decide) (by decide) (by decide)


/-- Claim C1 as stated is false: on `clusterPreDeclared` the slot count
per the claim (candidates needing allocation) is 1, whose smallest
covering power of two is 1, yet the code splits the parent into 2
blocks. -/
theorem C1_counterexample :
    specNeedSlotCount clusterPreDeclared = 1 ∧
    specSplitCount 1 = 1 ∧
    parseCIDR clusterPreDeclared.networkCIDR = some ⟨167772160, 16⟩ ∧
    classify ⟨167772160, 16⟩ 0 clusterPreDeclared.subnets =
      .ok ([0, 1], [], [⟨167772160, 17⟩]) ∧
    splitParent ⟨167772160, 16⟩
      (cidrCountOf (sortByZone clusterPreDeclared [0, 1])
        (sortByZone clusterPreDeclared [])) =
      .ok [⟨167772160, 17⟩, ⟨167804928, 17⟩] ∧
    ([⟨167772160, 17⟩, ⟨167804928, 17⟩] : List IPNet).length = 2 ∧
    (2 : Nat) ≠ 1 := by
  decide

/-- Claim C1, amended: the number of blocks the parent is split into is
the smallest power of two (capped at 8) at least the slot count, where
the slot count is the number of primary subnets participating in
allocation (classified: empty cidr, or cidr based inside the parent)
plus one if any utility subnet participates — not just those still
needing allocation. -/
theorem C1_split_count :
    (∀ (c : Cluster) (parent : IPNet) (bi li : List Nat)
      (res blocks : List IPNet),
      classify parent 0 c.subnets = .ok (bi, li, res) →
      splitParent parent
        (cidrCountOf (sortByZone c bi) (sortByZone c li)) = .ok blocks →
      blocks.length =
        specSplitCount (cidrCountOf (sortByZone c bi) (sortByZone c li))) ∧
    (∀ slots : Nat, (∃ j, j ≤ 3 ∧ specSplitCount slots = 2 ^ j) ∧
      (slots ≤ specSplitCount slots ∨
        (specSplitCount slots = 8 ∧ 8 < slots)) ∧
      ∀ m j, m = 2 ^ j → slots ≤ m → m ≤ 8 → specSplitCount slots ≤ m) := by
  constructor
  · intro c parent bi li res blocks hcl hsp
    unfold splitParent at hsp
    unfold specSplitCount
    split at hsp
    · rename_i hc1
      rw [if_pos hc1, splitIntoPow_length hsp]
      norm_num
    · split at hsp
      · rename_i hc1 hc2
        rw [if_neg hc1, if_pos hc2, splitIntoPow_length hsp]
        norm_num
      · split at hsp
        · rename_i hc1 hc2 hc3
          rw [if_neg hc1, if_neg hc2, if_pos hc3, splitIntoPow_length hsp]
          norm_num
        · rename_i hc1 hc2 hc3
          rw [if_neg hc1, if_neg hc2, if_neg hc3, splitIntoPow_length hsp]
          norm_num
  · intro slots
    unfold specSplitCount
    have hple : ∀ j : Nat, ¬j ≤ 3 → (16 : Nat) ≤ 2 ^ j := by
      intro j hj
      calc (16 : Nat) = 2 ^ 4 := by norm_num
        _ ≤ 2 ^ j := Nat.pow_le_pow_right (by norm_num) (by omega)
    by_cases h1 : slots ≤ 1
    · rw [if_pos h1]
      refine ⟨⟨0, by omega, rfl⟩, Or.inl (by omega), ?_⟩
      intro m j hm hsm hm8
      have hp : 0 < 2 ^ j := Nat.pow_pos (by norm_num)
      omega
    · rw [if_neg h1]
      by_cases h2 : slots ≤ 2
      · rw [if_pos h2]
        refine ⟨⟨1, by omega, rfl⟩, Or.inl (by omega), ?_⟩
        intro m j hm hsm hm8
        omega
      · rw [if_neg h2]
        by_cases h3 : slots ≤ 4
        · rw [if_pos h3]
          refine ⟨⟨2, by omega, rfl⟩, Or.inl (by omega), ?_⟩
          intro m j hm hsm hm8
          have hj : j ≤ 3 := by
            by_contra hj4
            have := hple j hj4
            omega
          interval_cases j <;> norm_num at hm <;> omega
        · rw [if_neg h3]
          by_cases h4 : slots ≤ 8
          · refine ⟨⟨3, by omega, rfl⟩, Or.inl (by omega), ?_⟩
            intro m j hm hsm hm8
            have hj : j ≤ 3 := by
              by_contra hj4
              have := hple j hj4
              omega
            interval_cases j <;> norm_num at hm <;> omega
          · refine ⟨⟨3, by omega, rfl⟩, Or.inr ⟨rfl, by omega⟩, ?_⟩
            intro m j hm hsm hm8
            omega

/-- Witness for the amended claim C1 on `clusterPreDeclared`. -/
theorem C1_witness :
    ([⟨167772160, 17⟩, ⟨167804928, 17⟩] : List IPNet).length =
      specSplitCount (cidrCountOf (sortByZone clusterPreDeclared [0, 1])
        (sortByZone clusterPreDeclared [])) :=
  C1_split_count.1 clusterPreDeclared ⟨167772160, 16⟩ [0, 1] []
    [⟨167772160, 17⟩] [⟨167772160, 17⟩, ⟨167804928, 17⟩]
    (by decide) (by decide)

/-- Claim C4: a run that fails with InsufficientCIDRs names a subnet that
is still without a cidr in the returned state, never erases an already
non-empty cidr, and every change it did make wrote a value onto a
previously empty cidr (no rollback). -/
theorem C4_insufficient_no_rollback :
    ∀ (cloud : Cloud) (c c' : Cluster) (e : RunError) (nm : String),
    assignCIDRsToSubnets cloud c = (c', some e) →
    (e = .insufficientBigCIDRs nm ∨ e = .insufficientLittleCIDRs nm) →
    (∃ i, i < c'.subnets.length ∧ (subnetAt c' i).name = nm ∧
      cidrAt c' i = "") ∧
    (∀ j, cidrAt c j ≠ "" → cidrAt c' j = cidrAt c j) ∧
    (∀ j, cidrAt c' j ≠ cidrAt c j → cidrAt c j = "" ∧ cidrAt c' j ≠ "") := by
  intro cloud c c' e nm h he
  obtain ⟨c1, hv, hcore, hfr1⟩ := run_insufficient_inv h he
  have hfr : FrameOK c c' := frameOK_trans hfr1 (coreAssign_frame hcore)
  refine ⟨coreAssign_insufficient hcore he, ?_, ?_⟩
  · intro j hj
    rcases (hfr.2.2.2 j).2 with hx | hx
    · exact hx
    · exact absurd hx.1 hj
  · intro j hj
    rcases (hfr.2.2.2 j).2 with hx | hx
    · exact absurd hx hj
    · exact hx

/-- Witness for claim C4 on `clusterNine`. -/
theorem C4_witness :
    assignCIDRsToSubnets cloudNone clusterNine =
      (clusterNineRes, some (.insufficientBigCIDRs "s9")) ∧
    ((∃ i, i < clusterNineRes.subnets.length ∧
        (subnetAt clusterNineRes i).name = "s9" ∧
        cidrAt clusterNineRes i = "") ∧
      (∀ j, cidrAt clusterNine j ≠ "" →
        cidrAt clusterNineRes j = cidrAt clusterNine j) ∧
      (∀ j, cidrAt clusterNineRes j ≠ cidrAt clusterNine j →
        cidrAt clusterNine j = "" ∧ cidrAt clusterNineRes j ≠ "")) :=
  ⟨by decide,
   C4_insufficient_no_rollback cloudNone clusterNine clusterNineRes
     (.insufficientBigCIDRs "s9") "s9" (by decide) (Or.inl rfl)⟩


/-- Claim C8: a candidate subnet whose role is private and whose
ipv6CIDR is non-empty is skipped by the primary assigner: the loop step
on it is the identity (same state, same pool, same error), and across
the whole core assignment its cidr field is unchanged. -/
theorem C8_private_ipv6_skipped :
    (∀ (st : Cluster) (pool : List IPNet) (i : Nat) (rest : List Nat),
      (subnetAt st i).ty = SubnetTypePrivate →
      (subnetAt st i).ipv6CIDR ≠ "" → cidrAt st i = "" →
      assignSubnets true st pool (i :: rest) =
        assignSubnets true st pool rest) ∧
    (∀ (c c' : Cluster) (e : Option RunError) (i : Nat),
      coreAssign c = (c', e) →
      (subnetAt c i).ty = SubnetTypePrivate →
      (subnetAt c i).ipv6CIDR ≠ "" →
      cidrAt c' i = cidrAt c i) := by
  constructor
  · intro st pool i rest hty hip hc
    rw [assignSubnets.eq_def]
    dsimp only
    rw [if_neg (show ¬(subnetAt st i).cidr ≠ "" from fun hne => hne hc),
      if_pos (show (true : Bool) ∧ (subnetAt st i).ipv6CIDR ≠ "" ∧
        (subnetAt st i).ty = SubnetTypePrivate from ⟨rfl, hip, hty⟩)]
  · intro c c' e i hrun hty hip
    unfold coreAssign at hrun
    cases hparse : parseCIDR c.networkCIDR with
    | none =>
      rw [hparse] at hrun
      dsimp only at hrun
      injection hrun with h1 h2
      rw [← h1]
    | some parent =>
    rw [hparse] at hrun
    dsimp only at hrun
    cases hcl : classify parent 0 c.subnets with
    | error e0 =>
      rw [hcl] at hrun
      dsimp only at hrun
      injection hrun with h1 h2
      rw [← h1]
    | ok triple =>
    obtain ⟨bi, li, res⟩ := triple
    rw [hcl] at hrun
    dsimp only at hrun
    cases hsp : splitParent parent
        (cidrCountOf (sortByZone c bi) (sortByZone c li)) with
    | error e0 =>
      rw [hsp] at hrun
      dsimp only at hrun
      injection hrun with h1 h2
      rw [← h1]
    | ok blocks =>
    rw [hsp] at hrun
    dsimp only at hrun
    cases hro : removeOverlapping res blocks with
    | nil =>
      rw [hro] at hrun
      dsimp only at hrun
      injection hrun with h1 h2
      rw [← h1]
    | cons b0 brest =>
    rw [hro] at hrun
    dsimp only at hrun
    have hnl : i ∉ sortByZone c li := by
      intro hm
      have h2 := classify_little_ty hcl i ((sortByZone_mem c).mp hm)
      rw [Nat.sub_zero] at h2
      have hty' := hty
      unfold subnetAt at hty'
      rw [hty'] at h2
      exact absurd h2 (by decide)
    split at hrun
    · cases hs8 : splitIntoPow 3 b0 with
      | error e0 =>
        rw [hs8] at hrun
        dsimp only at hrun
        injection hrun with h1 h2
        rw [← h1]
      | ok lp =>
      rw [hs8] at hrun
      dsimp only at hrun
      cases hlit : assignSubnets false c lp (sortByZone c li) with
      | mk st1 rest1 =>
      obtain ⟨p1, e1⟩ := rest1
      rw [hlit] at hrun
      cases e1 with
      | some e0 =>
        dsimp only at hrun
        injection hrun with h1 h2
        rw [← h1]
        exact assignSubnets_untouched hlit hnl
      | none =>
      dsimp only at hrun
      cases hbig : assignSubnets true st1 brest (sortByZone c bi) with
      | mk st2 rest2 =>
      obtain ⟨p2, e2⟩ := rest2
      rw [hbig] at hrun
      dsimp only at hrun
      injection hrun with h1 h2
      subst h1
      have hfr1 := assignSubnets_frame hlit
      have hty1 : (subnetAt st1 i).ty = SubnetTypePrivate :=
        (ty_of_nonCIDRFields ((hfr1.2.2.2 i).1)).trans hty
      have hip1 : (subnetAt st1 i).ipv6CIDR ≠ "" := by
        rw [ipv6_of_nonCIDRFields ((hfr1.2.2.2 i).1)]
        exact hip
      exact (assignSubnets_skip_ipv6private hbig hty1 hip1).trans
        (assignSubnets_untouched hlit hnl)
    · cases hbig : assignSubnets true c (b0 :: brest) (sortByZone c bi) with
      | mk st2 rest2 =>
      obtain ⟨p2, e2⟩ := rest2
      rw [hbig] at hrun
      dsimp only at hrun
      injection hrun with h1 h2
      subst h1
      exact assignSubnets_skip_ipv6private hbig hty hip

/-- Witness for claim C8 on `clusterSkip`. -/
theorem C8_witness :
    (assignSubnets true clusterSkip [⟨167772160, 17⟩, ⟨167804928, 17⟩]
        (0 :: [1]) =
      assignSubnets true clusterSkip [⟨167772160, 17⟩, ⟨167804928, 17⟩]
        [1]) ∧
    cidrAt clusterSkipRes 0 = cidrAt clusterSkip 0 :=
  ⟨C8_private_ipv6_skipped.1 clusterSkip [⟨167772160, 17⟩, ⟨167804928, 17⟩]
     0 [1] (by decide) (by decide) (by decide),
   C8_private_ipv6_skipped.2 clusterSkip clusterSkipRes none 0
     (by decide) (by decide) (by decide)⟩

/-- Claim C9: whenever any utility subnet participates in allocation
the split count gains one extra slot regardless of whether a utility
subnet still needs a cidr, and in a successful run the first surviving
block is re-split into 8 secondary blocks: every block newly assigned
to a utility subnet lies within that first block, and every block newly
assigned to a non-utility subnet is disjoint from it. -/
theorem C9_utility_block_reserved :
    (∀ (bigS littleS : List Nat), littleS ≠ [] →
      cidrCountOf bigS littleS = bigS.length + 1) ∧
    (∀ (c c' : Cluster) (parent : IPNet) (bi li : List Nat)
      (res blocks : List IPNet) (b0 : IPNet) (brest : List IPNet),
      parseCIDR c.networkCIDR = some parent →
      classify parent 0 c.subnets = .ok (bi, li, res) → li ≠ [] →
      splitParent parent
        (cidrCountOf (sortByZone c bi) (sortByZone c li)) = .ok blocks →
      removeOverlapping res blocks = b0 :: brest →
      coreAssign c = (c', none) →
      (∃ lp, splitIntoPow 3 b0 = .ok lp ∧ lp.length = 8) ∧
      ∀ i, cidrAt c i = "" → cidrAt c' i ≠ "" →
        ((subnetAt c i).ty = SubnetTypeUtility →
          ∃ b : IPNet, cidrAt c' i = b.render ∧ b.within b0 = true) ∧
        ((subnetAt c i).ty ≠ SubnetTypeUtility →
          ∃ b : IPNet, cidrAt c' i = b.render ∧ overlap b b0 = false)) := by
  constructor
  · intro bigS littleS h
    unfold cidrCountOf
    rw [if_pos (List.length_pos.mpr h)]
  · intro c c' parent bi li res blocks b0 brest hparse hcl hli hsp hro hrun
    have hlen : (sortByZone c li).length > 0 := by
      rw [sortByZone_length]
      exact List.length_pos.mpr hli
    unfold coreAssign at hrun
    rw [hparse] at hrun
    dsimp only at hrun
    rw [hcl] at hrun
    dsimp only at hrun
    rw [hsp] at hrun
    dsimp only at hrun
    rw [hro] at hrun
    dsimp only at hrun
    rw [if_pos hlen] at hrun
    cases hs8 : splitIntoPow 3 b0 with
    | error e0 =>
      rw [hs8] at hrun
      dsimp only at hrun
      injection hrun with h1 h2
      cases h2
    | ok lp =>
    rw [hs8] at hrun
    dsimp only at hrun
    refine ⟨⟨lp, rfl, splitIntoPow_length hs8⟩, ?_⟩
    cases hlit : assignSubnets false c lp (sortByZone c li) with
    | mk st1 rest1 =>
    obtain ⟨p1, e1⟩ := rest1
    rw [hlit] at hrun
    cases e1 with
    | some e0 =>
      dsimp only at hrun
      injection hrun with h1 h2
      cases h2
    | none =>
    dsimp only at hrun
    cases hbig : assignSubnets true st1 brest (sortByZone c bi) with
    | mk st2 rest2 =>
    obtain ⟨p2, e2⟩ := rest2
    rw [hbig] at hrun
    dsimp only at hrun
    injection hrun with h1 h2
    subst h1
    cases e2 with
    | some e0 => cases h2
    | none =>
    have hsv_pw : (b0 :: brest).Pairwise (fun a b => overlap a b = false) := by
      obtain ⟨k, hk3, hsik⟩ := splitParent_ok hsp
      exact List.Pairwise.sublist (hro ▸ removeOverlapping_sublist res blocks)
        (splitIntoPow_pairwise hsik)
    have hshape := classify_shape hcl
    intro i hci hcine
    have hchi : cidrAt st2 i ≠ cidrAt c i := by
      rw [hci]
      exact hcine
    by_cases h1 : cidrAt st1 i = cidrAt c i
    · have h2' : cidrAt st2 i ≠ cidrAt st1 i := by
        rw [h1]
        exact hchi
      obtain ⟨hm, hce, b, hb, hr⟩ := assignSubnets_changed hbig h2'
      have hity := classify_big_ty hcl i ((sortByZone_mem c).mp hm)
      rw [Nat.sub_zero] at hity
      have hityn : (subnetAt c i).ty ≠ SubnetTypeUtility := by
        intro hq
        unfold subnetAt at hq
        rcases hity with ht | ht | ht <;> rw [hq] at ht <;>
          exact absurd ht (by decide)
      refine ⟨fun hU => absurd hU hityn, fun _ => ⟨b, hr, ?_⟩⟩
      rw [overlap_comm]
      exact List.rel_of_pairwise_cons hsv_pw hb
    · obtain ⟨hm, hce, b, hb, hr⟩ := assignSubnets_changed hlit h1
      have hU : (subnetAt c i).ty = SubnetTypeUtility := by
        have h2' := classify_little_ty hcl i ((sortByZone_mem c).mp hm)
        rw [Nat.sub_zero] at h2'
        exact h2'
      have hnb : i ∉ sortByZone c bi := by
        intro hmm
        exact hshape.2.2.2 i ((sortByZone_mem c).mp hmm)
          ((sortByZone_mem c).mp hm)
      have hun : cidrAt st2 i = cidrAt st1 i :=
        assignSubnets_untouched hbig hnb
      refine ⟨fun _ => ⟨b, hun.trans hr, splitIntoPow_within hs8 b hb⟩,
        fun hne => absurd hU hne⟩

/-- Witness for claim C9 on `clusterUtil`. -/
theorem C9_witness :
    (∃ lp, splitIntoPow 3 (⟨167772160, 17⟩ : IPNet) = .ok lp ∧
      lp.length = 8) ∧
    (((subnetAt clusterUtil 1).ty = SubnetTypeUtility →
        ∃ b : IPNet, cidrAt clusterUtilRes 1 = b.render ∧
          b.within ⟨167772160, 17⟩ = true) ∧
      ((subnetAt clusterUtil 1).ty ≠ SubnetTypeUtility →
        ∃ b : IPNet, cidrAt clusterUtilRes 1 = b.render ∧
          overlap b ⟨167772160, 17⟩ = false)) :=
  have h := C9_utility_block_reserved.2 clusterUtil clusterUtilRes
    ⟨167772160, 16⟩ [0] [1] [] [⟨167772160, 17⟩, ⟨167804928, 17⟩]
    ⟨167772160, 17⟩ [⟨167804928, 17⟩] (by decide) (by decide) (by decide)
    (by decide) (by decide) (by decide)
  ⟨h.1, h.2 1 (by decide) (by decide)⟩

end Kops